import Mathlib

/-!
# Market-Radar: a verification development for `main.go`

The program polls a quote endpoint for a list of ticker symbols, decodes the JSON
answer into a `StockData` record, normalises the change-percent text and prints one
coloured line per symbol.

Go strings are embedded as lists of Unicode code points (`Str`); a response body is
the text it encodes.  `float64` values are embedded exactly: a finite value is a sign,
a natural significand and a binary exponent, and every conversion the program relies
on (`strconv.ParseFloat`, `fmt.Sscanf`, `fmt.Sprintf("%.2f")`, `encoding/json`) is a
total, executable function following the documented behaviour of the Go library.
-/

namespace MarketRadar

/-- Go `string`, as the list of its code points. -/
abbrev Str := List Char

/-! ## float64 -/

/-- A `float64`: NaN, a signed infinity, or the finite value `(-1)^neg * m * 2^e`. -/
inductive F64 where
  | nan : F64
  | inf (neg : Bool) : F64
  | fin (neg : Bool) (m : Nat) (e : Int) : F64
deriving DecidableEq

namespace F64

/-- The zero value of a Go `float64` variable. -/
def zero : F64 := .fin false 0 0

/-- Scale the two significands of finite values to a common binary exponent. -/
def align (m₁ : Nat) (e₁ : Int) (m₂ : Nat) (e₂ : Int) : Nat × Nat :=
  let e := min e₁ e₂
  (m₁ <<< (e₁ - e).toNat, m₂ <<< (e₂ - e).toNat)

/-- Go's `a < b` on `float64`: false as soon as one side is NaN, `-0 < +0` is false. -/
def lt : F64 → F64 → Bool
  | .nan, _ => false
  | _, .nan => false
  | .inf n₁, .inf n₂ => n₁ && !n₂
  | .inf n₁, .fin _ _ _ => n₁
  | .fin _ _ _, .inf n₂ => !n₂
  | .fin n₁ m₁ e₁, .fin n₂ m₂ e₂ =>
    let p := align m₁ e₁ m₂ e₂
    match n₁, n₂ with
    | false, false => decide (p.1 < p.2)
    | true, true => decide (p.2 < p.1)
    | true, false => decide (0 < p.1 ∨ 0 < p.2)
    | false, true => false

end F64

/-- Binary logarithm by halving, `fuel` bounding the number of halvings. -/
def log2Fuel : Nat → Nat → Nat
  | 0, _ => 0
  | fuel + 1, n => if n < 2 then 0 else log2Fuel fuel (n / 2) + 1

/-- The position of the highest set bit of `n` (0 for `n ≤ 1`). -/
def floorLog2 (n : Nat) : Nat := log2Fuel n n

/-- The integer nearest to `a / b`, a tie going to the even neighbour. -/
def roundHalfEven (a b : Nat) : Nat :=
  let q := a / b
  let r := a % b
  if 2 * r < b then q
  else if b < 2 * r then q + 1
  else if q % 2 = 0 then q else q + 1

/-- The binary exponent `⌊log₂ (num / den)⌋` of a positive fraction. -/
def binExp (num den : Nat) : Int :=
  let e₀ : Int := (floorLog2 num : Int) - (floorLog2 den : Int)
  if 0 ≤ e₀ then
    if den <<< e₀.toNat ≤ num then e₀ else e₀ - 1
  else
    if den ≤ num <<< (-e₀).toNat then e₀ else e₀ - 1

/-- The integer nearest to `num / den / 2^q`, a tie going to the even neighbour. -/
def scaledRound (num den : Nat) (q : Int) : Nat :=
  if 0 ≤ q then roundHalfEven num (den <<< q.toNat)
  else roundHalfEven (num <<< (-q).toNat) den

/-- IEEE 754 binary64 round-to-nearest-even of the fraction `± num / den`:
53 significant bits, exponent of the last bit not below `-1074`, overflow to infinity. -/
def roundToF64 (neg : Bool) (num den : Nat) : F64 :=
  if num = 0 then .fin neg 0 0
  else
    let q : Int := max (binExp num den) (-1022) - 52
    let n : Nat := scaledRound num den q
    if n = 0 then .fin neg 0 0
    else if 1024 ≤ q + (floorLog2 n : Int) then .inf neg
    else .fin neg n q

/-! ## `fmt.Sprintf("%.2f", x)` -/

/-- The number of hundredths nearest to `m * 2^e` (exact binary value, ties to even). -/
def hundredths (m : Nat) (e : Int) : Nat :=
  if 0 ≤ e then (m * 100) <<< e.toNat
  else roundHalfEven (m * 100) (1 <<< (-e).toNat)

/-- A count of hundredths written with two decimals: `123` is `1.23`. -/
def renderHundredths (h : Nat) : Str :=
  Nat.toDigits 10 (h / 100) ++ ['.', Nat.digitChar (h / 10 % 10), Nat.digitChar (h % 10)]

/-- The verb `%.2f` of package `fmt` applied to a `float64`. -/
def formatFixed2 : F64 → Str
  | .nan => ['N', 'a', 'N']
  | .inf false => ['+', 'I', 'n', 'f']
  | .inf true => ['-', 'I', 'n', 'f']
  | .fin neg m e => (if neg then ['-'] else []) ++ renderHundredths (hundredths m e)

/-! ## `strconv.ParseFloat` -/

/-- Package strconv's `commonPrefixLenIgnoreCase`: length of the common prefix of `s`
(upper-case ASCII letters lowered) and the lower-case `pre`. -/
def commonPrefixLenIgnoreCase : Str → Str → Nat
  | c :: s, p :: pre => if c.toLower = p then commonPrefixLenIgnoreCase s pre + 1 else 0
  | _, _ => 0

/-- The tail of strconv's `special` after an optional sign: `inf` or `infinity`. -/
def specialInf (neg : Bool) (nsign : Nat) (s : Str) : Option (F64 × Nat) :=
  let n := commonPrefixLenIgnoreCase s ['i', 'n', 'f', 'i', 'n', 'i', 't', 'y']
  let n := if 3 < n ∧ n < 8 then 3 else n
  if n = 3 ∨ n = 8 then some (.inf neg, nsign + n) else none

/-- Package strconv's `special`: the value and the number of characters consumed when
`s` starts with a (signed) infinity or an unsigned NaN. -/
def special : Str → Option (F64 × Nat)
  | [] => none
  | c :: r =>
    if c = '+' ∨ c = '-' then specialInf (c = '-') 1 r
    else if c = 'i' ∨ c = 'I' then specialInf false 0 (c :: r)
    else if c = 'n' ∨ c = 'N' then
      if commonPrefixLenIgnoreCase (c :: r) ['n', 'a', 'n'] = 3 then some (.nan, 3) else none
    else none

/-- The value of a decimal digit character. -/
def digitVal (c : Char) : Nat := c.toNat - '0'.toNat

/-- The value of a hexadecimal letter `a`–`f` / `A`–`F`. -/
def hexLetterVal (c : Char) : Option Nat :=
  if 'a' ≤ c ∧ c ≤ 'f' then some (c.toNat - 'a'.toNat + 10)
  else if 'A' ≤ c ∧ c ≤ 'F' then some (c.toNat - 'A'.toNat + 10)
  else none

/-- The running state of the mantissa loop of strconv's `readFloat`; the mantissa is
kept exactly (the library keeps 19 digits and a sticky flag, and rounds correctly). -/
structure Mantissa where
  value : Nat
  fracDigits : Nat
  sawdot : Bool
  sawdigits : Bool
  underscores : Bool
deriving DecidableEq

/-- One more digit `d` in base `base`. -/
def Mantissa.push (st : Mantissa) (base d : Nat) : Mantissa :=
  { st with
    value := st.value * base + d
    fracDigits := if st.sawdot then st.fracDigits + 1 else st.fracDigits
    sawdigits := true }

/-- The mantissa loop of `readFloat`: digits, underscores and at most one point. -/
def mantissaLoop (hex : Bool) : Mantissa → Str → Mantissa × Str
  | st, [] => (st, [])
  | st, c :: r =>
    if c = '_' then mantissaLoop hex { st with underscores := true } r
    else if c = '.' then
      if st.sawdot then (st, c :: r) else mantissaLoop hex { st with sawdot := true } r
    else if c.isDigit then mantissaLoop hex (st.push (if hex then 16 else 10) (digitVal c)) r
    else
      match hex, hexLetterVal c with
      | true, some d => mantissaLoop hex (st.push 16 d) r
      | _, _ => (st, c :: r)

/-- The exponent digits of `readFloat`; the library stops accumulating at 10000. -/
def exponentLoop : Nat → Bool → Str → Nat × Bool × Str
  | e, u, [] => (e, u, [])
  | e, u, c :: r =>
    if c = '_' then exponentLoop e true r
    else if c.isDigit then exponentLoop (if e < 10000 then e * 10 + digitVal c else e) u r
    else (e, u, c :: r)

/-- The scan of strconv's `underscoreOK` over the number proper; `saw` is the class of
the previous character (`'0'` digit, `'_'` underscore, `'!'` other, `'^'` start). -/
def underscoreScan (hex : Bool) : Char → Str → Bool
  | saw, [] => saw != '_'
  | saw, c :: r =>
    if c.isDigit || (hex && (hexLetterVal c).isSome) then underscoreScan hex '0' r
    else if c = '_' then
      if saw != '0' then false else underscoreScan hex '_' r
    else if saw = '_' then false
    else underscoreScan hex '!' r

/-- Package strconv's `underscoreOK`: underscores only between digits, or right
after a base prefix. -/
def underscoreOK (s : Str) : Bool :=
  let s := match s with
    | '+' :: r => r
    | '-' :: r => r
    | _ => s
  match s with
  | '0' :: p :: r =>
    if p.toLower = 'b' ∨ p.toLower = 'o' ∨ p.toLower = 'x' then
      underscoreScan (p.toLower = 'x') '0' r
    else underscoreScan false '^' s
  | _ => underscoreScan false '^' s

/-- What `readFloat` extracts from a well-formed prefix: the number is
`± mant * base^(-fracDigits) * b^exp` with `base = 16, b = 2` when `hex`, else
`base = b = 10`; `rest` is the unread input. -/
structure ReadFloat where
  neg : Bool
  hex : Bool
  mant : Nat
  fracDigits : Nat
  exp : Int
  rest : Str
deriving DecidableEq

/-- The end of `readFloat`: the underscore check on the consumed prefix. -/
def readFloatFinish (s : Str) (neg hex : Bool) (st : Mantissa) (exp : Int) (und : Bool)
    (rest : Str) : Option ReadFloat :=
  if und && !underscoreOK (s.take (s.length - rest.length)) then none
  else some ⟨neg, hex, st.value, st.fracDigits, exp, rest⟩

/-- The exponent part of `readFloat`, `r` being the input after the exponent letter. -/
def readExponent (s : Str) (neg hex : Bool) (st : Mantissa) (r : Str) : Option ReadFloat :=
  let signed : Int × Str := match r with
    | '+' :: t => (1, t)
    | '-' :: t => (-1, t)
    | _ => (1, r)
  match signed.2 with
  | [] => none
  | d :: _ =>
    if d.isDigit then
      let l := exponentLoop 0 false signed.2
      readFloatFinish s neg hex st (signed.1 * (l.1 : Int)) (st.underscores || l.2.1) l.2.2
    else none

/-- The optional sign at the head of a number: whether it is `-`, and the rest. -/
def stripSign : Str → Bool × Str
  | '+' :: r => (false, r)
  | '-' :: r => (true, r)
  | s => (false, s)

/-- The base prefix test of `readFloat`: `0x` or `0X` followed by at least one more
character selects base 16. -/
def stripHexPrefix : Str → Bool × Str
  | '0' :: x :: c :: r => if x = 'x' ∨ x = 'X' then (true, c :: r) else (false, '0' :: x :: c :: r)
  | s => (false, s)

/-- Package strconv's `readFloat`. -/
def readFloat (s : Str) : Option ReadFloat :=
  let signed := stripSign s
  let based := stripHexPrefix signed.2
  let neg := signed.1
  let hex := based.1
  let m := mantissaLoop hex ⟨0, 0, false, false, false⟩ based.2
  if !m.1.sawdigits then none
  else
    match m.2 with
    | [] => if hex then none else readFloatFinish s neg hex m.1 0 m.1.underscores []
    | c :: r =>
      if (hex && (c = 'p' ∨ c = 'P')) || (!hex && (c = 'e' ∨ c = 'E')) then
        readExponent s neg hex m.1 r
      else if hex then none
      else readFloatFinish s neg hex m.1 0 m.1.underscores (c :: r)

/-- The `float64` nearest to what `readFloat` read. -/
def ReadFloat.toF64 (r : ReadFloat) : F64 :=
  if r.hex then
    let e : Int := r.exp - 4 * (r.fracDigits : Int)
    if 0 ≤ e then roundToF64 r.neg (r.mant <<< e.toNat) 1
    else roundToF64 r.neg r.mant (1 <<< (-e).toNat)
  else
    let e : Int := r.exp - (r.fracDigits : Int)
    if 0 ≤ e then roundToF64 r.neg (r.mant * 10 ^ e.toNat) 1
    else roundToF64 r.neg r.mant (10 ^ (-e).toNat)

/-- The range check of `ParseFloat`: a number whose nearest `float64` is an infinity
is reported as an error (`none`). -/
def rangeChecked : F64 → Option F64
  | .inf _ => none
  | f => some f

/-- `strconv.ParseFloat(s, 64)`: `none` stands for a non-nil error (syntax error, or
range error when the nearest `float64` is an infinity). -/
def parseFloat (s : Str) : Option F64 :=
  match special s with
  | some (f, n) => if n = s.length then some f else none
  | none =>
    match readFloat s with
    | none => none
    | some r => if r.rest ≠ [] then none else rangeChecked r.toF64

/-! ## `strings.TrimSuffix`, `strings.Split` -/

/-- `strings.TrimSuffix`. -/
def trimSuffix (s suffix : Str) : Str :=
  if suffix.isSuffixOf s then s.take (s.length - suffix.length) else s

/-- `strings.Split(s, string(sep))` for a one-character separator. -/
def split (sep : Char) : Str → List Str
  | [] => [[]]
  | c :: r =>
    if c = sep then [] :: split sep r
    else
      match split sep r with
      | h :: t => (c :: h) :: t
      | [] => [[c]]

/-! ## `fmt.Sscanf` with the verbs `%f` and `%d` -/

/-- Package fmt's `isSpace` (the table `space` of `scan.go`). -/
def isSpace (c : Char) : Bool :=
  let r := c.toNat
  (0x0009 ≤ r && r ≤ 0x000d) || r == 0x0020 || r == 0x0085 || r == 0x00a0 || r == 0x1680 ||
  (0x2000 ≤ r && r ≤ 0x200a) || (0x2028 ≤ r && r ≤ 0x2029) || r == 0x202f || r == 0x205f ||
  r == 0x3000

/-- The scanner's `SkipSpace` for `Sscanf` (newlines are not spaces there): `none` is
the error "unexpected newline", otherwise the input from its first non-space on. -/
def skipSpace : Str → Option Str
  | [] => some []
  | c :: r =>
    if c = '\n' then none
    else if isSpace c then skipSpace r
    else some (c :: r)

/-- The scanner's `accept`: when the next character is one of `ok`, move it from the
input to the token buffer.  A state is the pair (token buffer, unread input). -/
def accept (ok : Str) (st : Str × Str) : Bool × (Str × Str) :=
  match st.2 with
  | [] => (false, st)
  | c :: r => if ok.contains c then (true, (st.1 ++ [c], r)) else (false, st)

/-- The loop `for s.accept(ok) { }`. -/
def acceptAll (ok : Str) : Str → Str → Str × Str
  | buf, [] => (buf, [])
  | buf, c :: r => if ok.contains c then acceptAll ok (buf ++ [c]) r else (buf, c :: r)

/-- The constant `decimalDigits + "_"` of `scan.go`. -/
def decimalDigitsU : Str := "0123456789_".toList

/-- The constant `hexadecimalDigits + "_"` of `scan.go`. -/
def hexadecimalDigitsU : Str := "0123456789aAbBcCdDeEfF_".toList

/-- The digits, point and exponent of `floatToken`, after the optional `0x`. -/
def floatTokenNumber (hex : Bool) (st : Str × Str) : Str × Str :=
  let digits := if hex then hexadecimalDigitsU else decimalDigitsU
  let exp : Str := if hex then ['p', 'P'] else ['e', 'E', 'p', 'P']
  let st := acceptAll digits st.1 st.2
  let dot := accept ['.'] st
  let st := if dot.1 then acceptAll digits dot.2.1 dot.2.2 else dot.2
  let e := accept exp st
  if e.1 then
    let sg := accept ['+', '-'] e.2
    acceptAll decimalDigitsU sg.2.1 sg.2.2
  else e.2

/-- The part of `floatToken` after the optional sign: `inf`, or an optional `0x` and
the number. -/
def floatTokenUnsigned (st : Str × Str) : Str × Str :=
  let i₁ := accept ['i', 'I'] st
  let i₂ := if i₁.1 then accept ['n', 'N'] i₁.2 else (false, i₁.2)
  let i₃ := if i₂.1 then accept ['f', 'F'] i₂.2 else (false, i₂.2)
  if i₃.1 then i₃.2
  else
    let z := accept ['0'] i₃.2
    let x := if z.1 then accept ['x', 'X'] z.2 else (false, z.2)
    floatTokenNumber x.1 x.2

/-- The scanner's `floatToken`: the longest prefix that looks like a floating-point
number, returned with the unread input. -/
def floatToken (inp : Str) : Str × Str :=
  let n₁ := accept ['n', 'N'] ([], inp)
  let n₂ := if n₁.1 then accept ['a', 'A'] n₁.2 else (false, n₁.2)
  let n₃ := if n₂.1 then accept ['n', 'N'] n₂.2 else (false, n₂.2)
  if n₃.1 then n₃.2
  else floatTokenUnsigned (accept ['+', '-'] n₃.2).2

/-- Two's-complement wrap-around of a Go `int` (64 bits). -/
def wrapInt64 (x : Int) : Int := (x + 2 ^ 63) % 2 ^ 64 - 2 ^ 63

/-- The value of a string of decimal digits. -/
def digitsValue (ds : Str) : Nat := ds.foldl (fun acc c => acc * 10 + digitVal c) 0

/-- `strconv.ParseInt(s, 10, 64)` (and `strconv.Atoi`, which agrees with it): an
optional sign and at least one digit, nothing else, the value within `int64`. -/
def parseInt (s : Str) : Option Int :=
  let signed := stripSign s
  if signed.2 = [] ∨ ¬ signed.2.all Char.isDigit then none
  else
    let n := digitsValue signed.2
    if signed.1 then (if n ≤ 2 ^ 63 then some (-(n : Int)) else none)
    else (if n < 2 ^ 63 then some (n : Int) else none)

/-- `math.Ldexp(f, m)`: `f * 2^m`, rounded once; the exponent of the result is
computed in a Go `int`. -/
def ldexp (f : F64) (m : Int) : F64 :=
  match f with
  | .fin neg mant e =>
    if mant = 0 then f
    else
      let exp₀ : Int := (floorLog2 mant : Int) + e
      let exp : Int := wrapInt64 (m + exp₀)
      if exp < -1075 then .fin neg 0 0
      else if 1023 < exp then .inf neg
      else
        let e₁ : Int := e + (exp - exp₀)
        if 0 ≤ e₁ then roundToF64 neg (mant <<< e₁.toNat) 1
        else roundToF64 neg mant (1 <<< (-e₁).toNat)
  | _ => f

/-- The scanner's `convertFloat`: `ParseFloat`, plus the decimal mantissa with a binary
exponent (`1.5p3`) that the scanner evaluates itself.  `none` is a scan error. -/
def convertFloat (tok : Str) : Option F64 :=
  if tok.contains 'p' && !(tok.contains 'x' || tok.contains 'X') then
    match parseFloat (tok.takeWhile (· ≠ 'p')) with
    | none => none
    | some f =>
      match parseInt ((tok.dropWhile (· ≠ 'p')).drop 1) with
      | none => none
      | some m => some (ldexp f m)
  else parseFloat tok

/-- The constant `hugeWid` of `scan.go`: a scan without a width reads at most this many
characters of its input and then sees the end of input. -/
def hugeWid : Nat := 1073741824

/-- The outcome of `fmt.Sscanf(input, "%f", &x)` for a `float64` variable `x`:
`some v` when `v` was stored in `x`, `none` when the call failed and left `x` alone. -/
def sscanFloat (input : Str) : Option F64 :=
  match skipSpace (input.take hugeWid) with
  | none => none
  | some [] => none
  | some (c :: r) => convertFloat (floatToken (c :: r)).1

/-- The outcome of `fmt.Sscanf(input, "%d", &n)` for an `int` variable `n`:
`some v` when `v` was stored, `none` when the call returned an error. -/
def sscanInt (input : Str) : Option Int :=
  match skipSpace (input.take hugeWid) with
  | none => none
  | some [] => none
  | some (c :: r) =>
    let sg := accept ['+', '-'] ([], c :: r)
    let d := accept "0123456789".toList sg.2
    if d.1 then parseInt (acceptAll "0123456789".toList d.2.1 d.2.2).1 else none

/-! ## `encoding/json`: syntax -/

/-- A JSON text after validation: the tree that `json.Unmarshal` walks. -/
inductive JSON where
  | null : JSON
  | bool (b : Bool) : JSON
  | number (lit : Str) : JSON
  | string (s : Str) : JSON
  | array (elems : List JSON) : JSON
  | object (members : List (Str × JSON)) : JSON

/-- The scanner's `isSpace`: the four JSON white-space characters. -/
def isJSONSpace (c : Char) : Bool := c = ' ' || c = '\t' || c = '\r' || c = '\n'

/-- Drop leading JSON white space. -/
def skipWs : Str → Str
  | [] => []
  | c :: r => if isJSONSpace c then skipWs r else c :: r

/-- The value of a hexadecimal digit. -/
def hexVal (c : Char) : Option Nat :=
  if c.isDigit then some (digitVal c) else hexLetterVal c

/-- The 16-bit value of the four hexadecimal digits of a `\u` escape. -/
def hex4 (a b c d : Char) : Option Nat :=
  match hexVal a, hexVal b, hexVal c, hexVal d with
  | some x, some y, some z, some w => some (((x * 16 + y) * 16 + z) * 16 + w)
  | _, _, _, _ => none

/-- The character a one-letter escape stands for. -/
def unescape (c : Char) : Option Nat :=
  if c = '"' ∨ c = '\\' ∨ c = '/' then some c.toNat
  else if c = 'b' then some 8
  else if c = 'f' then some 12
  else if c = 'n' then some 10
  else if c = 'r' then some 13
  else if c = 't' then some 9
  else none

/-- The body of a JSON string, the opening quote already read: the sequence of its
code units (a `\u` escape gives one 16-bit unit, any other character its code point)
and the input after the closing quote.  `none` is a syntax error. -/
def scanString : Str → Option (List Nat × Str)
  | [] => none
  | '"' :: r => some ([], r)
  | '\\' :: 'u' :: a :: b :: c :: d :: r =>
    match hex4 a b c d, scanString r with
    | some u, some (us, rest) => some (u :: us, rest)
    | _, _ => none
  | '\\' :: e :: r =>
    match unescape e, scanString r with
    | some u, some (us, rest) => some (u :: us, rest)
    | _, _ => none
  | c :: r =>
    if c.toNat < 0x20 ∨ c = '\\' then none
    else
      match scanString r with
      | some (us, rest) => some (c.toNat :: us, rest)
      | none => none

/-- The decoder's treatment of UTF-16 surrogates in `unquote`: a high surrogate
followed by a low one is one character, a stray surrogate is U+FFFD. -/
def combineSurrogates : List Nat → Str
  | [] => []
  | [u] => [if 0xD800 ≤ u ∧ u < 0xE000 then Char.ofNat 0xFFFD else Char.ofNat u]
  | u :: v :: r =>
    if 0xD800 ≤ u ∧ u < 0xDC00 ∧ 0xDC00 ≤ v ∧ v < 0xE000 then
      Char.ofNat ((u - 0xD800) * 0x400 + (v - 0xDC00) + 0x10000) :: combineSurrogates r
    else if 0xD800 ≤ u ∧ u < 0xE000 then Char.ofNat 0xFFFD :: combineSurrogates (v :: r)
    else Char.ofNat u :: combineSurrogates (v :: r)

/-- A JSON string literal, opening quote already read: its decoded text. -/
def parseString (s : Str) : Option (Str × Str) :=
  match scanString s with
  | some (us, rest) => some (combineSurrogates us, rest)
  | none => none

/-- The longest run of decimal digits at the head of the input. -/
def spanDigits : Str → Str × Str
  | [] => ([], [])
  | c :: r =>
    if c.isDigit then
      let p := spanDigits r
      (c :: p.1, p.2)
    else ([], c :: r)

/-- The optional fraction of a JSON number: a point and at least one digit. -/
def scanFraction : Str → Option (Str × Str)
  | '.' :: r =>
    let p := spanDigits r
    if p.1 = [] then none else some ('.' :: p.1, p.2)
  | s => some ([], s)

/-- The optional sign of an exponent, with the rest of the input. -/
def scanSign : Str → Str × Str
  | '+' :: t => (['+'], t)
  | '-' :: t => (['-'], t)
  | s => ([], s)

/-- The optional exponent of a JSON number: `e`/`E`, a sign, at least one digit. -/
def scanExponent : Str → Option (Str × Str)
  | [] => some ([], [])
  | c :: r =>
    if c = 'e' ∨ c = 'E' then
      let signed := scanSign r
      let p := spanDigits signed.2
      if p.1 = [] then none else some (c :: signed.1 ++ p.1, p.2)
    else some ([], c :: r)

/-- The integer part of a JSON number: `0`, or a non-zero digit and more digits. -/
def scanIntPart : Str → Option (Str × Str)
  | [] => none
  | c :: r =>
    if c = '0' then some (['0'], r)
    else if c.isDigit then
      let p := spanDigits r
      some (c :: p.1, p.2)
    else none

/-- The optional minus sign of a JSON number, with the rest of the input. -/
def scanMinus : Str → Str × Str
  | '-' :: r => (['-'], r)
  | s => ([], s)

/-- A JSON number literal. -/
def parseNumber (s : Str) : Option (Str × Str) :=
  let signed := scanMinus s
  match scanIntPart signed.2 with
  | none => none
  | some (i, r₁) =>
    match scanFraction r₁ with
    | none => none
    | some (f, r₂) =>
      match scanExponent r₂ with
      | none => none
      | some (e, r₃) => some (signed.1 ++ i ++ f ++ e, r₃)

/-- The decoder's `maxNestingDepth`. -/
def maxNestingDepth : Nat := 10000

/-- A JSON value that is not an array or an object: a string, `true`, `false`, `null`
or a number. -/
def parseScalar : Str → Option (JSON × Str)
  | '"' :: r =>
    match parseString r with
    | some (t, rest) => some (.string t, rest)
    | none => none
  | 't' :: 'r' :: 'u' :: 'e' :: r => some (.bool true, r)
  | 'f' :: 'a' :: 'l' :: 's' :: 'e' :: r => some (.bool false, r)
  | 'n' :: 'u' :: 'l' :: 'l' :: r => some (.null, r)
  | s =>
    match parseNumber s with
    | some (lit, rest) => some (.number lit, rest)
    | none => none

mutual
/-- One JSON value with the white space before it; `depth` is the number of arrays
and objects that may still be opened, `fuel` bounds the recursion (the length of the
input is always enough, see `parseValue_fuel`). -/
def parseValue : Nat → Nat → Str → Option (JSON × Str)
  | 0, _, _ => none
  | fuel + 1, depth, s =>
    match skipWs s with
    | '[' :: r =>
      match depth with
      | 0 => none
      | depth + 1 =>
        match skipWs r with
        | ']' :: rest => some (.array [], rest)
        | _ =>
          match parseValue fuel depth r with
          | none => none
          | some (v, r₁) =>
            match parseElements fuel depth r₁ with
            | none => none
            | some (vs, rest) => some (.array (v :: vs), rest)
    | '{' :: r =>
      match depth with
      | 0 => none
      | depth + 1 =>
        match skipWs r with
        | '}' :: rest => some (.object [], rest)
        | '"' :: r₁ =>
          match parseMember fuel depth r₁ with
          | none => none
          | some (kv, r₂) =>
            match parseMembers fuel depth r₂ with
            | none => none
            | some (kvs, rest) => some (.object (kv :: kvs), rest)
        | _ => none
    | t => parseScalar t
termination_by structural fuel => fuel
/-- The rest of an array after an element: `]`, or `,` and one more element. -/
def parseElements : Nat → Nat → Str → Option (List JSON × Str)
  | 0, _, _ => none
  | fuel + 1, depth, s =>
    match skipWs s with
    | ']' :: rest => some ([], rest)
    | ',' :: r =>
      match parseValue fuel depth r with
      | none => none
      | some (v, r₁) =>
        match parseElements fuel depth r₁ with
        | none => none
        | some (vs, rest) => some (v :: vs, rest)
    | _ => none
termination_by structural fuel => fuel
/-- One member of an object, the opening quote of its key already read. -/
def parseMember : Nat → Nat → Str → Option ((Str × JSON) × Str)
  | 0, _, _ => none
  | fuel + 1, depth, s =>
    match parseString s with
    | none => none
    | some (key, r) =>
      match skipWs r with
      | ':' :: r₁ =>
        match parseValue fuel depth r₁ with
        | none => none
        | some (v, rest) => some ((key, v), rest)
      | _ => none
termination_by structural fuel => fuel
/-- The rest of an object after a member: `}`, or `,` and one more member. -/
def parseMembers : Nat → Nat → Str → Option (List (Str × JSON) × Str)
  | 0, _, _ => none
  | fuel + 1, depth, s =>
    match skipWs s with
    | '}' :: rest => some ([], rest)
    | ',' :: r =>
      match skipWs r with
      | '"' :: r₁ =>
        match parseMember fuel depth r₁ with
        | none => none
        | some (kv, r₂) =>
          match parseMembers fuel depth r₂ with
          | none => none
          | some (kvs, rest) => some (kv :: kvs, rest)
      | _ => none
    | _ => none
termination_by structural fuel => fuel
end

/-- The decoder's `checkValid` together with the tree it accepts: `none` when the
body is not one well-formed JSON value (surrounded by optional white space). -/
def parseJSON (body : Str) : Option JSON :=
  match parseValue (body.length + 1) maxNestingDepth body with
  | none => none
  | some (v, rest) => if skipWs rest = [] then some v else none

/-! ## The records of `main.go` and `json.Unmarshal` into them -/

/-- The errors the program can observe. -/
inductive GoError where
  /-- An error reported by the environment (network, file system), with its text. -/
  | io (msg : Str) : GoError
  /-- A `*json.SyntaxError`: the body is not well-formed JSON. -/
  | jsonSyntax : GoError
  /-- A `*json.UnmarshalTypeError`, or the error of a misused `,string` option. -/
  | jsonUnmarshal : GoError
  /-- An error of `fmt.Sscanf`. -/
  | scan : GoError
deriving DecidableEq

/-- The struct `StockData` of `main.go`. -/
structure StockData where
  /-- Field tagged `json:"01. symbol"`. -/
  Symbol : Str
  /-- Field tagged `json:"05. price,string"`. -/
  Price : F64
  /-- Field tagged `json:"09. change,string"`. -/
  Change : F64
  /-- Field tagged `json:"10. change percent"`. -/
  ChangePercent : Str
deriving DecidableEq

/-- The struct `AlphaVantageResponse` of `main.go`. -/
structure AlphaVantageResponse where
  /-- Field tagged `json:"Global Quote"`. -/
  GlobalQuote : StockData
deriving DecidableEq

/-- The zero value of `StockData`. -/
def StockData.zero : StockData := ⟨[], F64.zero, F64.zero, []⟩

/-- The value of `var response AlphaVantageResponse`. -/
def AlphaVantageResponse.zero : AlphaVantageResponse := ⟨StockData.zero⟩

/-- The decoder's `foldRune` as far as a match with an ASCII name goes: ASCII letters
fold to upper case, and so do the two characters outside ASCII whose case orbit
contains an ASCII letter (U+017F long s, U+212A Kelvin sign). -/
def foldRune (c : Char) : Char :=
  if c = Char.ofNat 0x17F then 'S'
  else if c = Char.ofNat 0x212A then 'K'
  else c.toUpper

/-- The decoder's `foldName`. -/
def foldName (s : Str) : Str := s.map foldRune

/-- The fields of `StockData`. -/
inductive Field where
  | symbol : Field
  | price : Field
  | change : Field
  | changePercent : Field
deriving DecidableEq

/-- The JSON names of the fields of `StockData`, in declaration order. -/
def stockDataFields : List (Str × Field) :=
  [("01. symbol".toList, .symbol), ("05. price".toList, .price),
   ("09. change".toList, .change), ("10. change percent".toList, .changePercent)]

/-- The JSON name of the one field of `AlphaVantageResponse`. -/
def globalQuoteName : Str := "Global Quote".toList

/-- The decoder's choice of a struct field for an object key: an exact match of the
name is preferred, a case-insensitive match is accepted. -/
def lookupField {α : Type} (fields : List (Str × α)) (key : Str) : Option α :=
  match fields.find? (fun f => f.1 = key) with
  | some f => some f.2
  | none =>
    match fields.find? (fun f => foldName f.1 = foldName key) with
    | some f => some f.2
    | none => none

/-- The decoder storing a JSON value in a `string` field: `none` is an error. -/
def decodeString (cur : Str) : JSON → Option Str
  | .null => some cur
  | .string s => some s
  | _ => none

/-- The decoder storing a JSON value in a `float64` field with the `,string` option
(`literalStore` with `fromQuoted`): the value must be `null` or a string holding
`null` or a number that `strconv.ParseFloat` accepts.  `none` is an error. -/
def decodeQuotedFloat (cur : F64) : JSON → Option F64
  | .null => some cur
  | .string [] => none
  | .string (c :: r) =>
    if c = 'n' then (if c :: r = ['n', 'u', 'l', 'l'] then some cur else none)
    else if c = 't' ∨ c = 'f' ∨ c = '"' then none
    else if c ≠ '-' ∧ ¬ c.isDigit then none
    else parseFloat (c :: r)
  | _ => none

/-- The decoder storing the value of one object member in a `StockData`. -/
def decodeMember (sd : StockData) (kv : Str × JSON) : Option StockData :=
  match lookupField stockDataFields kv.1 with
  | none => some sd
  | some .symbol => (decodeString sd.Symbol kv.2).map fun v => { sd with Symbol := v }
  | some .price => (decodeQuotedFloat sd.Price kv.2).map fun v => { sd with Price := v }
  | some .change => (decodeQuotedFloat sd.Change kv.2).map fun v => { sd with Change := v }
  | some .changePercent =>
    (decodeString sd.ChangePercent kv.2).map fun v => { sd with ChangePercent := v }

/-- The decoder storing the members of an object, in order, in a `StockData`. -/
def decodeMembers : StockData → List (Str × JSON) → Option StockData
  | sd, [] => some sd
  | sd, kv :: rest =>
    match decodeMember sd kv with
    | none => none
    | some sd₁ => decodeMembers sd₁ rest

/-- The decoder storing a JSON value in a `StockData`. -/
def decodeStockData (sd : StockData) : JSON → Option StockData
  | .null => some sd
  | .object members => decodeMembers sd members
  | _ => none

/-- The decoder storing the members of the top-level object. -/
def decodeResponseMembers : AlphaVantageResponse → List (Str × JSON) →
    Option AlphaVantageResponse
  | resp, [] => some resp
  | resp, kv :: rest =>
    match lookupField [(globalQuoteName, ())] kv.1 with
    | none => decodeResponseMembers resp rest
    | some () =>
      match decodeStockData resp.GlobalQuote kv.2 with
      | none => none
      | some sd => decodeResponseMembers ⟨sd⟩ rest

/-- The decoder storing a JSON value in an `AlphaVantageResponse`. -/
def decodeResponse (resp : AlphaVantageResponse) : JSON → Option AlphaVantageResponse
  | .null => some resp
  | .object members => decodeResponseMembers resp members
  | _ => none

/-- `json.Unmarshal(body, &response)` for a freshly declared `response`: the error, or
the value of `response` when the error is nil. -/
def jsonUnmarshal (body : Str) : Except GoError AlphaVantageResponse :=
  match parseJSON body with
  | none => .error .jsonSyntax
  | some v =>
    match decodeResponse AlphaVantageResponse.zero v with
    | none => .error .jsonUnmarshal
    | some resp => .ok resp

/-! ## `getStockData` -/

/-- What `http.Get` followed by `io.ReadAll` can give: a transport error, or a response
with its status code whose body is read in full or fails to be read.  The status
code is never looked at by the program. -/
inductive HttpResult where
  | failed (msg : Str) : HttpResult
  | response (status : Nat) (body : Except Str Str) : HttpResult

/-- The request URL built by `getStockData`. -/
def quoteURL (symbol apiKey : Str) : Str :=
  "https://www.alphavantage.co/query?function=GLOBAL_QUOTE&symbol=".toList ++ symbol ++
    "&apikey=".toList ++ apiKey

/-- Lines 50–53 of `main.go`: the change-percent text that is stored. -/
def normalizePercent (text : Str) : Str :=
  let changePercent := trimSuffix text ['%']
  let changePercentFloat := (sscanFloat changePercent).getD F64.zero
  formatFixed2 changePercentFloat ++ ['%']

/-- The function `getStockData`; `get` is the network as `http.Get` sees it at the time
of the call.  `.ok d` stands for `(&d, nil)`, `.error e` for `(nil, e)`. -/
def getStockData (get : Str → HttpResult) (symbol apiKey : Str) : Except GoError StockData :=
  match get (quoteURL symbol apiKey) with
  | .failed msg => .error (.io msg)
  | .response _ (.error msg) => .error (.io msg)
  | .response _ (.ok body) =>
    match jsonUnmarshal body with
    | .error err => .error err
    | .ok response =>
      .ok { response.GlobalQuote with
            ChangePercent := normalizePercent response.GlobalQuote.ChangePercent }

/-! ## `displayStockData` and the polling loop -/

/-- The colours the program asks package `color` for. -/
inductive Color where
  | plain : Color
  | yellow : Color
  | red : Color
  | green : Color
deriving DecidableEq

/-- A piece of a printed line: text in a colour, or an error value printed with `%v`. -/
inductive Seg where
  | text (c : Color) (s : Str) : Seg
  | error (e : GoError) : Seg
deriving DecidableEq

/-- What one call of `fmt.Printf`/`fmt.Println` ending in a newline writes. -/
abbrev Line := List Seg

/-- The function `displayStockData`: the line it prints. -/
def displayStockData (data : StockData) : Line :=
  let changeText : Seg :=
    if F64.lt data.Change F64.zero then .text .red data.ChangePercent
    else .text .green data.ChangePercent
  [.text .yellow data.Symbol, .text .plain (": $".toList ++ formatFixed2 data.Price ++ " (".toList),
   changeText, .text .plain [')']]

/-- The diagnostic printed by the loop when a fetch fails. -/
def fetchErrorLine (symbol : Str) (err : GoError) : Line :=
  [.text .plain ("Error fetching data for ".toList ++ symbol ++ ": ".toList), .error err]

/-- The inner `for` of `main`: one print call per symbol; `net k` is the network at the
time of the `k`-th request. -/
def pollSymbols (net : Nat → Str → HttpResult) (apiKey : Str) : Nat → List Str → List Line
  | _, [] => []
  | k, symbol :: rest =>
    (match getStockData (net k) symbol apiKey with
      | .error err => fetchErrorLine symbol err
      | .ok data => displayStockData data) :: pollSymbols net apiKey (k + 1) rest

/-- What the program does that can be observed. -/
inductive Output where
  | line (l : Line) : Output
  | sleep (nanoseconds : Int) : Output
deriving DecidableEq

/-- One iteration of the outer `for` of `main`, started when `k` requests were made. -/
def cycle (net : Nat → Str → HttpResult) (apiKey : Str) (updateInterval : Int) (k : Nat)
    (symbols : List Str) : List Output :=
  (pollSymbols net apiKey k symbols).map .line ++
    [.line [], .sleep (wrapInt64 (wrapInt64 updateInterval * 1000000000))]

/-- The first `n` iterations of the outer `for` of `main`. -/
def pollingLoop (net : Nat → Str → HttpResult) (apiKey : Str) (updateInterval : Int)
    (symbols : List Str) : Nat → Nat → List Output
  | 0, _ => []
  | n + 1, k =>
    cycle net apiKey updateInterval k symbols ++
      pollingLoop net apiKey updateInterval symbols n (k + symbols.length)

/-! ## Start-up of `main` -/

/-- The verb `%d` applied to an `int`. -/
def formatInt (i : Int) : Str :=
  if i < 0 then '-' :: Nat.toDigits 10 i.natAbs else Nat.toDigits 10 i.natAbs

/-- How `main` leaves its start-up code: by `os.Exit`, or into the polling loop with
the configuration it has read. -/
inductive Startup where
  | exit (printed : List Line) (code : Nat) : Startup
  | polling (printed : List Line) (apiKey : Str) (symbols : List Str) (updateInterval : Int) :
      Startup
deriving DecidableEq

/-- The banner printed before the loop. -/
def banner (updateInterval : Int) : List Line :=
  [[.text .plain ("Starting Stock Market Tracker (Update interval: ".toList ++
      formatInt updateInterval ++ " seconds)".toList)],
   [.text .plain "Press Ctrl+C to exit".toList], []]

/-- Lines 75–101 of `main`: `loadEnv` is the error of `godotenv.Load` if any, `getenv`
is `os.Getenv` afterwards (the empty string for a variable that is not set). -/
def startup (loadEnv : Option Str) (getenv : Str → Str) : Startup :=
  match loadEnv with
  | some err => .exit [[.text .plain "Error loading .env file: ".toList, .error (.io err)]] 1
  | none =>
    let apiKey := getenv "ALPHA_VANTAGE_API_KEY".toList
    if apiKey = [] then
      .exit [[.text .plain "Error: ALPHA_VANTAGE_API_KEY not set in .env file".toList]] 1
    else
      let symbols := split ',' (getenv "STOCK_SYMBOLS".toList)
      let symbols :=
        if symbols.length = 0 then ["AAPL".toList, "MSFT".toList, "GOOGL".toList] else symbols
      let interval := getenv "UPDATE_INTERVAL".toList
      if interval ≠ [] then
        match sscanInt interval with
        | none =>
          .exit [[.text .plain "Error parsing UPDATE_INTERVAL: ".toList, .error .scan]] 1
        | some updateInterval => .polling (banner updateInterval) apiKey symbols updateInterval
      else .polling (banner 60) apiKey symbols 60

/-! ## Observations on printed lines, and sample inputs -/

deriving instance DecidableEq for Except

/-- The text of a piece of a line, colours dropped (an error value has no fixed text). -/
def Seg.str : Seg → Str
  | .text _ s => s
  | .error _ => []

/-- The text of a line, colours dropped. -/
def Line.printed (l : Line) : Str := (l.map Seg.str).flatten

/-- The colour of the change-percent piece (the third one) of a quote line. -/
def Line.flag : Line → Option Color
  | [_, _, .text c _, _] => some c
  | _ => none

/-- The third piece of a line, colour and text: in a quote line, the change-percent. -/
def Line.percentPiece : Line → Option Seg
  | [_, _, seg, _] => some seg
  | _ => none

/-- A text that holds no newline character. -/
def newlineFree (s : Str) : Prop := '\n' ∉ s

/-- The characters written for a piece of a line: plain text as it is, coloured text
as package `color` paints it (`paint`), an error value as its message (`errText`). -/
def Seg.render (paint : Color → Str → Str) (errText : GoError → Str) : Seg → Str
  | .text c s => if c = .plain then s else paint c s
  | .error e => errText e

/-- The characters written by the print call of a line, its final newline included. -/
def Line.render (paint : Color → Str → Str) (errText : GoError → Str) (l : Line) : Str :=
  (l.map (Seg.render paint errText)).flatten ++ ['\n']

instance (s : Str) : Decidable (newlineFree s) := inferInstanceAs (Decidable ('\n' ∉ s))

/-- The number written by an optional sign and the decimal digits `ds`. -/
def numeralValue (sign ds : Str) : Int :=
  if sign = ['-'] then -(digitsValue ds : Int) else (digitsValue ds : Int)

/-- The environment in which exactly the listed variables are set. -/
def envOf (vars : List (Str × Str)) (name : Str) : Str :=
  match vars.find? (fun v => v.1 = name) with
  | some v => v.2
  | none => []

/-- A network on which every request is answered alike. -/
def always (r : HttpResult) : Nat → Str → HttpResult := fun _ _ => r

/-- A complete quote answer for MSFT, gaining. -/
def msftBody : Str :=
  ("\x7b\"Global Quote\": \x7b\"01. symbol\": \"MSFT\", \"05. price\": \"300.00\", " ++
    "\"09. change\": \"2.0\", \"10. change percent\": \"0.67%\"\x7d\x7d").toList

/-- A network whose first request fails and whose later requests are answered with the
quote for MSFT. -/
def firstFails : Nat → Str → HttpResult := fun k _ =>
  if k = 0 then .failed "timeout".toList else .response 200 (.ok msftBody)

/-- A quote answer that holds nothing but the change-percent text `text`. -/
def percentBody (text : Str) : Str :=
  "\x7b\"Global Quote\": \x7b\"10. change percent\": \"".toList ++ text ++ "\"\x7d\x7d".toList

/-- An answer whose price is not a number. -/
def badPriceBody : Str :=
  ("\x7b\"Global Quote\": \x7b\"05. price\": \"n/a\", " ++
    "\"10. change percent\": \"abc%\"\x7d\x7d").toList

/-- An answer whose only key differs from `Global Quote` in letter case. -/
def lowerKeyBody : Str :=
  "\x7b\"global quote\": \x7b\"01. symbol\": \"X\", \"05. price\": \"1\"\x7d\x7d".toList

/-- The notice the upstream service sends instead of a quote. -/
def noteBody : Str := "\x7b\"Note\": \"Thank you for using Alpha Vantage!\"\x7d".toList

/-- The text of the optional fraction of a decimal numeral. -/
def fracText : Option Str → Str
  | none => []
  | some f => '.' :: f

/-- The change-percent text stored for the decimal number `± num / den`: the `%.2f`
form of the nearest `float64`, or of zero when that is an infinity (the scan fails). -/
def storedPercent (neg : Bool) (num den : Nat) : Str :=
  formatFixed2 ((rangeChecked (roundToF64 neg num den)).getD F64.zero) ++ ['%']

/-- The state of the mantissa loop after the decimal digits `ds`. -/
def pushDigits (st : Mantissa) (ds : Str) : Mantissa :=
  ds.foldl (fun st c => st.push 10 (digitVal c)) st

/-- The spec's words "`<number>` rounded to 2 decimals" for the exact decimal number
`num / den`: the nearest count of hundredths (a tie going to the even neighbour),
written with two decimals. -/
def specRounded2 (num den : Nat) : Str := renderHundredths (roundHalfEven (num * 100) den)

/-- Fuel `f` is never what makes a parse succeed: a successful parse consumes input
and is reproduced by every amount of fuel above the number of characters consumed. -/
def FuelOK (f : Nat) : Prop :=
  (∀ d s v rest, parseValue f d s = some (v, rest) →
    rest.length < s.length ∧
      ∀ f', s.length - rest.length < f' → parseValue f' d s = some (v, rest)) ∧
  (∀ d s vs rest, parseElements f d s = some (vs, rest) →
    rest.length < s.length ∧
      ∀ f', s.length - rest.length < f' → parseElements f' d s = some (vs, rest)) ∧
  (∀ d s kv rest, parseMember f d s = some (kv, rest) →
    rest.length < s.length ∧
      ∀ f', s.length - rest.length < f' → parseMember f' d s = some (kv, rest)) ∧
  (∀ d s kvs rest, parseMembers f d s = some (kvs, rest) →
    rest.length < s.length ∧
      ∀ f', s.length - rest.length < f' → parseMembers f' d s = some (kvs, rest))

/-! ## Theorems -/

/-! ### The `float64` model rounds to a nearest value -/

theorem roundHalfEven_nearest (a b : Nat) (hb : 0 < b) :
    2 * (roundHalfEven a b * b) ≤ 2 * a + b ∧ 2 * a ≤ 2 * (roundHalfEven a b * b) + b := by
  have h₁ := Nat.div_add_mod a b
  have h₂ := Nat.mod_lt a hb
  have h₃ : (a / b + 1) * b = b * (a / b) + b := by ring
  have h₄ : a / b * b = b * (a / b) := by ring
  unfold roundHalfEven
  simp only
  split_ifs <;> simp only [h₃, h₄] <;> omega

theorem log2Fuel_spec : ∀ fuel n, n ≤ fuel → 1 ≤ n →
    2 ^ log2Fuel fuel n ≤ n ∧ n < 2 ^ (log2Fuel fuel n + 1) := by
  intro fuel
  induction fuel with
  | zero => intro n h₁ h₂; omega
  | succ fuel ih =>
    intro n h₁ h₂
    unfold log2Fuel
    split_ifs with hn
    · have : n = 1 := by omega
      subst this
      simp
    · have := ih (n / 2) (by omega) (by omega)
      have hdiv := Nat.div_add_mod n 2
      have hmod := Nat.mod_lt n (show 0 < 2 by omega)
      rw [pow_succ, pow_succ (n := log2Fuel fuel (n / 2) + 1)]
      omega

theorem floorLog2_spec (n : Nat) (h : 1 ≤ n) :
    2 ^ floorLog2 n ≤ n ∧ n < 2 ^ (floorLog2 n + 1) :=
  log2Fuel_spec n n (Nat.le_refl _) h

theorem shiftLeft_cast (x k : Nat) : ((x <<< k : Nat) : ℚ) = (x : ℚ) * 2 ^ k := by
  rw [Nat.shiftLeft_eq]
  push_cast
  ring

theorem floorLog2_cast (n : Nat) (h : 1 ≤ n) :
    (2 : ℚ) ^ floorLog2 n ≤ n ∧ (n : ℚ) < 2 ^ (floorLog2 n + 1) := by
  obtain ⟨h₁, h₂⟩ := floorLog2_spec n h
  constructor
  · exact_mod_cast h₁
  · exact_mod_cast h₂

theorem binExp_spec (num den : Nat) (hn : 1 ≤ num) (hd : 1 ≤ den) :
    (2 : ℚ) ^ binExp num den ≤ (num : ℚ) / den ∧
      (num : ℚ) / den < (2 : ℚ) ^ (binExp num den + 1) := by
  obtain ⟨ha₁, ha₂⟩ := floorLog2_cast num hn
  obtain ⟨hb₁, hb₂⟩ := floorLog2_cast den hd
  have hdq : (0 : ℚ) < den := by exact_mod_cast hd
  have hnq : (0 : ℚ) < num := by exact_mod_cast hn
  have h2 : (0 : ℚ) < 2 := by norm_num
  set a := floorLog2 num with ha
  set b := floorLog2 den with hb
  rw [← zpow_natCast] at ha₁ ha₂ hb₁ hb₂
  push_cast at ha₂ hb₂
  -- the quotient lies strictly between 2^(a-b-1) and 2^(a-b+1)
  have hlow : (2 : ℚ) ^ ((a : Int) - b - 1) < (num : ℚ) / den := by
    rw [lt_div_iff₀ hdq]
    calc (2 : ℚ) ^ ((a : Int) - b - 1) * den
        < (2 : ℚ) ^ ((a : Int) - b - 1) * 2 ^ ((b : Int) + 1) :=
          mul_lt_mul_of_pos_left hb₂ (zpow_pos h2 _)
      _ = (2 : ℚ) ^ (a : Int) := by rw [← zpow_add₀ (by norm_num)]; congr 1; ring
      _ ≤ num := ha₁
  have hhigh : (num : ℚ) / den < (2 : ℚ) ^ ((a : Int) - b + 1) := by
    rw [div_lt_iff₀ hdq]
    calc (num : ℚ) < (2 : ℚ) ^ ((a : Int) + 1) := ha₂
      _ = (2 : ℚ) ^ ((a : Int) - b + 1) * 2 ^ (b : Int) := by
          rw [← zpow_add₀ (by norm_num)]; congr 1; ring
      _ ≤ (2 : ℚ) ^ ((a : Int) - b + 1) * den :=
          mul_le_mul_of_nonneg_left hb₁ (zpow_pos h2 _).le
  unfold binExp
  simp only [← ha, ← hb]
  by_cases he : (0 : Int) ≤ (a : Int) - b
  · simp only [he, if_true]
    have hk : (((a : Int) - b).toNat : Int) = (a : Int) - b := Int.toNat_of_nonneg he
    by_cases hc : den <<< ((a : Int) - b).toNat ≤ num
    · simp only [hc, if_true]
      refine ⟨?_, hhigh⟩
      have : ((den <<< ((a : Int) - b).toNat : Nat) : ℚ) ≤ num := by exact_mod_cast hc
      rw [shiftLeft_cast, ← zpow_natCast, hk] at this
      rw [le_div_iff₀ hdq]
      linarith [mul_comm (den : ℚ) ((2 : ℚ) ^ ((a : Int) - b))]
    · simp only [hc, if_false]
      refine ⟨hlow.le, ?_⟩
      have : (num : ℚ) < ((den <<< ((a : Int) - b).toNat : Nat) : ℚ) := by
        exact_mod_cast Nat.lt_of_not_le hc
      rw [shiftLeft_cast, ← zpow_natCast, hk] at this
      rw [div_lt_iff₀ hdq, sub_add_cancel]
      linarith [mul_comm (den : ℚ) ((2 : ℚ) ^ ((a : Int) - b))]
  · simp only [he, if_false]
    have hneg : (0 : Int) ≤ -((a : Int) - b) := by omega
    have hk : ((-((a : Int) - b)).toNat : Int) = -((a : Int) - b) := Int.toNat_of_nonneg hneg
    have hz : (2 : ℚ) ^ (-((a : Int) - b)) * 2 ^ ((a : Int) - b) = 1 := by
      rw [← zpow_add₀ (by norm_num)]; simp
    by_cases hc : den ≤ num <<< (-((a : Int) - b)).toNat
    · simp only [hc, if_true]
      refine ⟨?_, hhigh⟩
      have : (den : ℚ) ≤ ((num <<< (-((a : Int) - b)).toNat : Nat) : ℚ) := by exact_mod_cast hc
      rw [shiftLeft_cast, ← zpow_natCast, hk] at this
      rw [le_div_iff₀ hdq]
      have hp := zpow_pos h2 ((a : Int) - b)
      nlinarith [mul_le_mul_of_nonneg_left this hp.le]
    · simp only [hc, if_false]
      refine ⟨hlow.le, ?_⟩
      have : ((num <<< (-((a : Int) - b)).toNat : Nat) : ℚ) < den := by
        exact_mod_cast Nat.lt_of_not_le hc
      rw [shiftLeft_cast, ← zpow_natCast, hk] at this
      rw [div_lt_iff₀ hdq, sub_add_cancel]
      have hp := zpow_pos h2 ((a : Int) - b)
      nlinarith [mul_lt_mul_of_pos_left this hp]

theorem roundHalfEven_cast (a b : Nat) (hb : 0 < b) :
    |(a : ℚ) / b - roundHalfEven a b| ≤ 1 / 2 := by
  obtain ⟨h₁, h₂⟩ := roundHalfEven_nearest a b hb
  have hbq : (0 : ℚ) < b := by exact_mod_cast hb
  have h₁q : (2 : ℚ) * (roundHalfEven a b * b) ≤ 2 * a + b := by exact_mod_cast h₁
  have h₂q : (2 : ℚ) * a ≤ 2 * (roundHalfEven a b * b) + b := by exact_mod_cast h₂
  rw [abs_le]
  constructor
  · rw [le_sub_iff_add_le, le_div_iff₀ hbq]
    linarith
  · rw [sub_le_iff_le_add, div_le_iff₀ hbq]
    linarith

theorem scaledRound_near (num den : Nat) (hd : 1 ≤ den) (q : Int) :
    |(num : ℚ) / den / 2 ^ q - scaledRound num den q| ≤ 1 / 2 := by
  have hdq : (0 : ℚ) < den := by exact_mod_cast hd
  unfold scaledRound
  by_cases hs : (0 : Int) ≤ q
  · simp only [hs, if_true]
    have hk : ((q.toNat : Nat) : Int) = q := Int.toNat_of_nonneg hs
    have hb : 0 < den <<< q.toNat := by
      rw [Nat.shiftLeft_eq]; positivity
    have := roundHalfEven_cast num (den <<< q.toNat) hb
    rw [shiftLeft_cast, ← zpow_natCast, hk] at this
    rwa [div_div]
  · simp only [hs, if_false]
    have hk : (((-q).toNat : Nat) : Int) = -q := Int.toNat_of_nonneg (by omega)
    have := roundHalfEven_cast (num <<< (-q).toNat) den hd
    rw [shiftLeft_cast, ← zpow_natCast, hk, zpow_neg] at this
    have he : (num : ℚ) * (2 ^ q)⁻¹ / den = (num : ℚ) / den / 2 ^ q := by
      rw [← div_eq_mul_inv, div_div, div_div, mul_comm]
    rwa [he] at this

theorem roundToF64_nearest (neg : Bool) (num den : Nat) (hn : 1 ≤ num) (hd : 1 ≤ den)
    (neg₁ : Bool) (n : Nat) (q : Int) (h : roundToF64 neg num den = .fin neg₁ n q)
    (hn0 : n ≠ 0) :
    neg₁ = neg ∧ -1074 ≤ q ∧ n ≤ 2 ^ 53 ∧ (-1074 < q → 2 ^ 52 ≤ n) ∧
      |(num : ℚ) / den - n * 2 ^ q| ≤ 2 ^ q / 2 := by
  obtain ⟨hE₁, hE₂⟩ := binExp_spec num den hn hd
  have hdq : (0 : ℚ) < den := by exact_mod_cast hd
  have h2 : (0 : ℚ) < 2 := by norm_num
  have hnum : num ≠ 0 := by omega
  unfold roundToF64 at h
  simp only [hnum, if_false] at h
  split_ifs at h with hz hov
  · simp only [F64.fin.injEq] at h
    exact absurd h.2.1.symm hn0
  · simp only [F64.fin.injEq] at h
    obtain ⟨rfl, hnq, rfl⟩ := h
    set E := binExp num den with hE
    have hq : -1074 ≤ max E (-1022) - 52 := by omega
    have hnear := scaledRound_near num den hd (max E (-1022) - 52)
    rw [hnq] at hnear
    have hp : (0 : ℚ) < 2 ^ (max E (-1022) - 52) := zpow_pos h2 _
    have hfinal : |(num : ℚ) / den - n * 2 ^ (max E (-1022) - 52)| ≤
        2 ^ (max E (-1022) - 52) / 2 := by
      have : (num : ℚ) / den - n * 2 ^ (max E (-1022) - 52) =
          ((num : ℚ) / den / 2 ^ (max E (-1022) - 52) - n) * 2 ^ (max E (-1022) - 52) := by
        field_simp
        ring
      rw [this, abs_mul, abs_of_pos hp]
      calc |(num : ℚ) / den / 2 ^ (max E (-1022) - 52) - n| * 2 ^ (max E (-1022) - 52)
          ≤ 1 / 2 * 2 ^ (max E (-1022) - 52) := mul_le_mul_of_nonneg_right hnear hp.le
        _ = 2 ^ (max E (-1022) - 52) / 2 := by ring
    -- the scaled number lies below 2^53, and not below 2^52 for a normal result
    have hup : (num : ℚ) / den / 2 ^ (max E (-1022) - 52) < 2 ^ (53 : Int) := by
      rw [div_lt_iff₀ hp, ← zpow_add₀ (by norm_num)]
      calc (num : ℚ) / den < 2 ^ (E + 1) := hE₂
        _ ≤ 2 ^ (53 + (max E (-1022) - 52)) :=
          zpow_le_zpow_right₀ (by norm_num) (by omega)
    refine ⟨rfl, hq, ?_, ?_, hfinal⟩
    · have hlt : (n : ℚ) < 2 ^ (53 : Int) + 1 := by
        have := (abs_le.mp hnear).1
        linarith
      have : (n : ℚ) < ((2 ^ 53 + 1 : Nat) : ℚ) := by
        push_cast
        have e : (2 : ℚ) ^ (53 : Int) = 2 ^ 53 := by norm_num
        linarith
      have : n < 2 ^ 53 + 1 := by exact_mod_cast this
      omega
    · intro hnormal
      have hmax : max E (-1022) = E := by
        rcases le_total E (-1022) with hle | hle
        · rw [max_eq_right hle] at hnormal; omega
        · exact max_eq_left hle
      have hlow : (2 : ℚ) ^ (52 : Int) ≤ (num : ℚ) / den / 2 ^ (max E (-1022) - 52) := by
        rw [le_div_iff₀ hp, ← zpow_add₀ (by norm_num), hmax]
        have : (52 : Int) + (E - 52) = E := by ring
        rw [this]
        exact hE₁
      have hgt : (2 : ℚ) ^ (52 : Int) - 1 < n := by
        have := (abs_le.mp hnear).2
        linarith
      have : (((2 ^ 52 - 1 : Nat)) : ℚ) < n := by
        have e : (2 : ℚ) ^ (52 : Int) = 2 ^ 52 := by norm_num
        have e₂ : ((2 ^ 52 - 1 : Nat) : ℚ) = 2 ^ 52 - 1 := by norm_num
        rw [e₂]
        linarith
      have : 2 ^ 52 - 1 < n := by exact_mod_cast this
      omega

theorem hundredths_nearest (m : Nat) (e : Int) :
    |(m : ℚ) * 2 ^ e * 100 - hundredths m e| ≤ 1 / 2 := by
  unfold hundredths
  by_cases hs : (0 : Int) ≤ e
  · simp only [hs, if_true]
    have hk : ((e.toNat : Nat) : Int) = e := Int.toNat_of_nonneg hs
    rw [shiftLeft_cast, ← zpow_natCast, hk]
    push_cast
    have : (m : ℚ) * 2 ^ e * 100 - (m : ℚ) * 100 * 2 ^ e = 0 := by ring
    rw [this]
    norm_num
  · simp only [hs, if_false]
    have hk : (((-e).toNat : Nat) : Int) = -e := Int.toNat_of_nonneg (by omega)
    have hb : 0 < 1 <<< (-e).toNat := by
      rw [Nat.shiftLeft_eq]; positivity
    have := roundHalfEven_cast (m * 100) (1 <<< (-e).toNat) hb
    rw [shiftLeft_cast, ← zpow_natCast, hk, zpow_neg] at this
    push_cast at this
    have he : (m : ℚ) * 100 / (1 * (2 ^ e)⁻¹) = (m : ℚ) * 2 ^ e * 100 := by
      rw [one_mul, div_eq_mul_inv, inv_inv]
      ring
    rwa [he] at this

/-! ### The JSON parser never fails for lack of fuel -/

theorem skipWs_length_le : ∀ s : Str, (skipWs s).length ≤ s.length
  | [] => Nat.le_refl _
  | c :: r => by
    unfold skipWs
    split_ifs
    · exact Nat.le_succ_of_le (skipWs_length_le r)
    · exact Nat.le_refl _

theorem scanString_length (n : Nat) : ∀ (s : Str), s.length = n → ∀ (us : List Nat) (rest : Str),
    scanString s = some (us, rest) → rest.length < s.length := by
  induction n using Nat.strong_induction_on with
  | _ n ih =>
    intro s hs us rest h
    unfold scanString at h
    split at h
    · simp at h
    · simp only [Option.some.injEq, Prod.mk.injEq] at h
      rw [← h.2]
      simp
    · rename_i a b c d r
      split at h
      · rename_i u us₁ rest₁ _ hr
        simp only [Option.some.injEq, Prod.mk.injEq] at h
        have := ih r.length (by rw [← hs]; simp; omega) r rfl us₁ rest₁ hr
        rw [← h.2]
        simp only [List.length_cons]
        omega
      · simp at h
    · rename_i e r _
      split at h
      · rename_i u us₁ rest₁ _ hr
        simp only [Option.some.injEq, Prod.mk.injEq] at h
        have := ih r.length (by rw [← hs]; simp; omega) r rfl us₁ rest₁ hr
        rw [← h.2]
        simp only [List.length_cons]
        omega
      · simp at h
    · rename_i c r _ _ _
      split_ifs at h
      split at h
      · rename_i us₁ rest₁ hr
        simp only [Option.some.injEq, Prod.mk.injEq] at h
        have := ih r.length (by rw [← hs]; simp) r rfl us₁ rest₁ hr
        rw [← h.2]
        simp only [List.length_cons]
        omega
      · simp at h

theorem parseString_length (s t rest : Str) (h : parseString s = some (t, rest)) :
    rest.length < s.length := by
  unfold parseString at h
  split at h
  · rename_i us rest₁ hs
    simp only [Option.some.injEq, Prod.mk.injEq] at h
    rw [← h.2]
    exact scanString_length _ s rfl us rest₁ hs
  · simp at h

theorem spanDigits_length : ∀ s : Str, (spanDigits s).2.length ≤ s.length
  | [] => Nat.le_refl _
  | c :: r => by
    unfold spanDigits
    split_ifs
    · exact Nat.le_succ_of_le (spanDigits_length r)
    · exact Nat.le_refl _

theorem scanIntPart_length (s i rest : Str) (h : scanIntPart s = some (i, rest)) :
    rest.length < s.length := by
  unfold scanIntPart at h
  split at h
  · simp at h
  · rename_i c r
    split_ifs at h
    · simp only [Option.some.injEq, Prod.mk.injEq] at h
      rw [← h.2]; simp
    · simp only [Option.some.injEq, Prod.mk.injEq] at h
      rw [← h.2]
      have := spanDigits_length r
      simp only [List.length_cons]
      omega

theorem scanFraction_length (s f rest : Str) (h : scanFraction s = some (f, rest)) :
    rest.length ≤ s.length := by
  unfold scanFraction at h
  split at h
  · rename_i r
    dsimp only at h
    split_ifs at h
    simp only [Option.some.injEq, Prod.mk.injEq] at h
    rw [← h.2]
    have := spanDigits_length r
    simp only [List.length_cons]
    omega
  · simp only [Option.some.injEq, Prod.mk.injEq] at h
    rw [← h.2]

theorem scanSign_length (s : Str) : (scanSign s).2.length ≤ s.length := by
  unfold scanSign
  split <;> simp

theorem scanExponent_length (s e rest : Str) (h : scanExponent s = some (e, rest)) :
    rest.length ≤ s.length := by
  unfold scanExponent at h
  split at h
  · simp only [Option.some.injEq, Prod.mk.injEq] at h
    rw [← h.2]
  · rename_i c r
    dsimp only at h
    split_ifs at h
    · simp only [Option.some.injEq, Prod.mk.injEq] at h
      rw [← h.2]
      have h₁ := scanSign_length r
      have h₂ := spanDigits_length (scanSign r).2
      simp only [List.length_cons]
      omega
    · simp only [Option.some.injEq, Prod.mk.injEq] at h
      rw [← h.2]

theorem scanMinus_length (s : Str) : (scanMinus s).2.length ≤ s.length := by
  unfold scanMinus
  split <;> simp

theorem parseNumber_length (s lit rest : Str) (h : parseNumber s = some (lit, rest)) :
    rest.length < s.length := by
  unfold parseNumber at h
  dsimp only at h
  have hs := scanMinus_length s
  split at h
  · simp at h
  · rename_i i r₁ hi
    split at h
    · simp at h
    · rename_i f r₂ hf
      split at h
      · simp at h
      · rename_i e r₃ he
        simp only [Option.some.injEq, Prod.mk.injEq] at h
        rw [← h.2]
        have h₁ := scanIntPart_length _ _ _ hi
        have h₂ := scanFraction_length _ _ _ hf
        have h₃ := scanExponent_length _ _ _ he
        omega

theorem parseScalar_length (s : Str) (v : JSON) (rest : Str)
    (h : parseScalar s = some (v, rest)) : rest.length < s.length := by
  unfold parseScalar at h
  split at h
  · split at h
    · rename_i r t rest₁ hs
      simp only [Option.some.injEq, Prod.mk.injEq] at h
      rw [← h.2]
      have := parseString_length _ _ _ hs
      simp only [List.length_cons]
      omega
    · simp at h
  · simp only [Option.some.injEq, Prod.mk.injEq] at h
    rw [← h.2]; simp only [List.length_cons]; omega
  · simp only [Option.some.injEq, Prod.mk.injEq] at h
    rw [← h.2]; simp only [List.length_cons]; omega
  · simp only [Option.some.injEq, Prod.mk.injEq] at h
    rw [← h.2]; simp only [List.length_cons]; omega
  · split at h
    · rename_i lit rest₁ hs
      simp only [Option.some.injEq, Prod.mk.injEq] at h
      rw [← h.2]
      exact parseNumber_length _ _ _ hs
    · simp at h

theorem fuelOK_zero : FuelOK 0 := by
  refine ⟨?_, ?_, ?_, ?_⟩ <;> intro d s v rest h <;> simp [parseValue, parseElements, parseMember, parseMembers] at h

theorem fuelOK_elements (f : Nat) (ih : FuelOK f) :
    ∀ d s vs rest, parseElements (f + 1) d s = some (vs, rest) →
    rest.length < s.length ∧
      ∀ f', s.length - rest.length < f' → parseElements f' d s = some (vs, rest) := by
  intro d s vs rest h
  have hws := skipWs_length_le s
  rw [parseElements] at h
  split at h
  · rename_i rest₁ heq
    simp only [Option.some.injEq, Prod.mk.injEq] at h
    obtain ⟨rfl, rfl⟩ := h
    rw [heq] at hws
    simp only [List.length_cons] at hws
    refine ⟨by omega, ?_⟩
    intro f' hf'
    cases f' with
    | zero => omega
    | succ f'' => simp only [parseElements, heq]
  · rename_i r heq
    rw [heq] at hws
    simp only [List.length_cons] at hws
    split at h
    · simp at h
    · rename_i v₁ r₁ hv
      split at h
      · simp at h
      · rename_i vs₁ rest₁ he
        simp only [Option.some.injEq, Prod.mk.injEq] at h
        obtain ⟨rfl, rfl⟩ := h
        obtain ⟨hv₁, hv₂⟩ := ih.1 d r v₁ r₁ hv
        obtain ⟨he₁, he₂⟩ := ih.2.1 d r₁ vs₁ rest₁ he
        refine ⟨by omega, ?_⟩
        intro f' hf'
        cases f' with
        | zero => omega
        | succ f'' =>
          rw [parseElements, heq]
          simp only [hv₂ f'' (by omega), he₂ f'' (by omega)]
  · simp at h

theorem fuelOK_member (f : Nat) (ih : FuelOK f) :
    ∀ d s kv rest, parseMember (f + 1) d s = some (kv, rest) →
    rest.length < s.length ∧
      ∀ f', s.length - rest.length < f' → parseMember f' d s = some (kv, rest) := by
  intro d s kv rest h
  rw [parseMember] at h
  split at h
  · simp at h
  · rename_i key r hk
    have hk₁ := parseString_length _ _ _ hk
    have hws := skipWs_length_le r
    split at h
    · rename_i r₁ heq
      rw [heq] at hws
      simp only [List.length_cons] at hws
      split at h
      · simp at h
      · rename_i v rest₁ hv
        simp only [Option.some.injEq, Prod.mk.injEq] at h
        obtain ⟨rfl, rfl⟩ := h
        obtain ⟨hv₁, hv₂⟩ := ih.1 d r₁ v rest₁ hv
        refine ⟨by omega, ?_⟩
        intro f' hf'
        cases f' with
        | zero => omega
        | succ f'' =>
          simp only [parseMember, hk, heq, hv₂ f'' (by omega)]
    · simp at h

theorem fuelOK_members (f : Nat) (ih : FuelOK f) :
    ∀ d s kvs rest, parseMembers (f + 1) d s = some (kvs, rest) →
    rest.length < s.length ∧
      ∀ f', s.length - rest.length < f' → parseMembers f' d s = some (kvs, rest) := by
  intro d s kvs rest h
  have hws := skipWs_length_le s
  rw [parseMembers] at h
  split at h
  · rename_i rest₁ heq
    simp only [Option.some.injEq, Prod.mk.injEq] at h
    obtain ⟨rfl, rfl⟩ := h
    rw [heq] at hws
    simp only [List.length_cons] at hws
    refine ⟨by omega, ?_⟩
    intro f' hf'
    cases f' with
    | zero => omega
    | succ f'' => simp only [parseMembers, heq]
  · rename_i r heq
    rw [heq] at hws
    simp only [List.length_cons] at hws
    have hws₁ := skipWs_length_le r
    split at h
    · rename_i r₁ heq₁
      rw [heq₁] at hws₁
      simp only [List.length_cons] at hws₁
      split at h
      · simp at h
      · rename_i kv r₂ hm
        split at h
        · simp at h
        · rename_i kvs₁ rest₁ hms
          simp only [Option.some.injEq, Prod.mk.injEq] at h
          obtain ⟨rfl, rfl⟩ := h
          obtain ⟨hm₁, hm₂⟩ := ih.2.2.1 d r₁ kv r₂ hm
          obtain ⟨hms₁, hms₂⟩ := ih.2.2.2 d r₂ kvs₁ rest₁ hms
          refine ⟨by omega, ?_⟩
          intro f' hf'
          cases f' with
          | zero => omega
          | succ f'' =>
            simp only [parseMembers, heq, heq₁, hm₂ f'' (by omega), hms₂ f'' (by omega)]
    · simp at h
  · simp at h

theorem fuelOK_value (f : Nat) (ih : FuelOK f) :
    ∀ d s v rest, parseValue (f + 1) d s = some (v, rest) →
    rest.length < s.length ∧
      ∀ f', s.length - rest.length < f' → parseValue f' d s = some (v, rest) := by
  intro d s v rest h
  have hws := skipWs_length_le s
  rw [parseValue] at h
  split at h
  · rename_i r heq
    rw [heq] at hws
    simp only [List.length_cons] at hws
    have hws₁ := skipWs_length_le r
    split at h
    · simp at h
    · rename_i d₁
      split at h
      · rename_i rest₁ heq₁
        simp only [Option.some.injEq, Prod.mk.injEq] at h
        obtain ⟨rfl, rfl⟩ := h
        rw [heq₁] at hws₁
        simp only [List.length_cons] at hws₁
        refine ⟨by omega, ?_⟩
        intro f' hf'
        cases f' with
        | zero => omega
        | succ f'' => simp only [parseValue, heq, heq₁]
      · rename_i hne
        split at h
        · simp at h
        · rename_i v₁ r₁ hv
          split at h
          · simp at h
          · rename_i vs rest₁ he
            simp only [Option.some.injEq, Prod.mk.injEq] at h
            obtain ⟨rfl, rfl⟩ := h
            obtain ⟨hv₁, hv₂⟩ := ih.1 d₁ r v₁ r₁ hv
            obtain ⟨he₁, he₂⟩ := ih.2.1 d₁ r₁ vs rest₁ he
            refine ⟨by omega, ?_⟩
            intro f' hf'
            cases f' with
            | zero => omega
            | succ f'' =>
              simp only [parseValue, heq, hv₂ f'' (by omega), he₂ f'' (by omega)]
  · rename_i r heq
    rw [heq] at hws
    simp only [List.length_cons] at hws
    have hws₁ := skipWs_length_le r
    split at h
    · simp at h
    · rename_i d₁
      split at h
      · rename_i rest₁ heq₁
        simp only [Option.some.injEq, Prod.mk.injEq] at h
        obtain ⟨rfl, rfl⟩ := h
        rw [heq₁] at hws₁
        simp only [List.length_cons] at hws₁
        refine ⟨by omega, ?_⟩
        intro f' hf'
        cases f' with
        | zero => omega
        | succ f'' => simp only [parseValue, heq, heq₁]
      · rename_i r₁ heq₁
        rw [heq₁] at hws₁
        simp only [List.length_cons] at hws₁
        split at h
        · simp at h
        · rename_i kv r₂ hm
          split at h
          · simp at h
          · rename_i kvs rest₁ hms
            simp only [Option.some.injEq, Prod.mk.injEq] at h
            obtain ⟨rfl, rfl⟩ := h
            obtain ⟨hm₁, hm₂⟩ := ih.2.2.1 d₁ r₁ kv r₂ hm
            obtain ⟨hms₁, hms₂⟩ := ih.2.2.2 d₁ r₂ kvs rest₁ hms
            refine ⟨by omega, ?_⟩
            intro f' hf'
            cases f' with
            | zero => omega
            | succ f'' =>
              simp only [parseValue, heq, heq₁, hm₂ f'' (by omega), hms₂ f'' (by omega)]
      · simp at h
  · rename_i t hne₁ hne₂
    have hlen := parseScalar_length _ _ _ h
    refine ⟨by omega, ?_⟩
    intro f' hf'
    cases f' with
    | zero => omega
    | succ f'' =>
      rw [parseValue]
      split
      · rename_i r heq
        exact absurd heq (hne₁ r)
      · rename_i r heq
        exact absurd heq (hne₂ r)
      · exact h

theorem fuelOK (f : Nat) : FuelOK f := by
  induction f with
  | zero => exact fuelOK_zero
  | succ f ih =>
    exact ⟨fuelOK_value f ih, fuelOK_elements f ih, fuelOK_member f ih, fuelOK_members f ih⟩

/-- The fuel given by `parseJSON` is enough: whatever a larger or smaller amount of fuel
produces as a value at depth `d`, the length of the input plus one produces as well. -/
theorem parseValue_fuel (f d : Nat) (s : Str) (v : JSON) (rest : Str)
    (h : parseValue f d s = some (v, rest)) :
    parseValue (s.length + 1) d s = some (v, rest) :=
  ((fuelOK f).1 d s v rest h).2 (s.length + 1) (by omega)

theorem parseJSON_of_fuel (f : Nat) (body : Str) (v : JSON) (rest : Str)
    (h : parseValue f maxNestingDepth body = some (v, rest)) (hrest : skipWs rest = []) :
    parseJSON body = some v := by
  simp only [parseJSON, parseValue_fuel f maxNestingDepth body v rest h, hrest, if_true]

/-! ### The scanner reads a decimal numeral in full -/

theorem digit_mem (c : Char) (h : c.isDigit = true) : c ∈ "0123456789".toList := by
  have hc : c = Char.ofNat c.toNat := (Char.ofNat_toNat c).symm
  have hr : 48 ≤ c.toNat ∧ c.toNat ≤ 57 := by
    simp only [Char.isDigit, Bool.and_eq_true, decide_eq_true_eq] at h
    exact ⟨h.1, h.2⟩
  generalize c.toNat = n at hc hr
  obtain ⟨h₁, h₂⟩ := hr
  subst hc
  interval_cases n <;> decide

theorem contains_false_of_digit (ok : Str)
    (hok : ∀ d ∈ "0123456789".toList, ok.contains d = false) (c : Char)
    (h : c.isDigit = true) : ok.contains c = false :=
  hok c (digit_mem c h)

theorem trimSuffix_append (d suffix : Str) : trimSuffix (d ++ suffix) suffix = d := by
  have h : suffix.isSuffixOf (d ++ suffix) = true := by
    rw [List.isSuffixOf_iff_suffix]
    exact List.suffix_append d suffix
  simp [trimSuffix, h]

theorem acceptAll_append (ok : Str) (ds : Str) (h : ∀ c ∈ ds, ok.contains c = true) :
    ∀ (buf r : Str), acceptAll ok buf (ds ++ r) = acceptAll ok (buf ++ ds) r := by
  induction ds with
  | nil => intro buf r; simp
  | cons c ds ih =>
    intro buf r
    have hc := h c (List.mem_cons_self _ _)
    have := ih (fun c₁ hm => h c₁ (List.mem_cons_of_mem _ hm)) (buf ++ [c]) r
    show acceptAll ok buf (c :: (ds ++ r)) = _
    rw [acceptAll]
    simp only [hc, if_true]
    rw [this, List.append_assoc, List.singleton_append]

theorem accept_false (ok buf r : Str) (h : ∀ c ∈ r, ok.contains c = false) :
    accept ok (buf, r) = (false, (buf, r)) := by
  cases r with
  | nil => rfl
  | cons c r =>
    have := h c (List.mem_cons_self _ _)
    simp only [accept, this]
    rfl

theorem accept_true (ok buf : Str) (c : Char) (r : Str) (h : ok.contains c = true) :
    accept ok (buf, c :: r) = (true, (buf ++ [c], r)) := by
  simp only [accept, h]
  rfl

theorem acceptAll_nil (ok buf : Str) : acceptAll ok buf [] = (buf, []) := rfl

theorem digit_decimalDigitsU (c : Char) (h : c.isDigit = true) :
    decimalDigitsU.contains c = true := by
  have key : ∀ d ∈ "0123456789".toList, decimalDigitsU.contains d = true := by decide
  exact key c (digit_mem c h)

theorem acceptAll_all (ok buf ds : Str) (h : ∀ c ∈ ds, ok.contains c = true) :
    acceptAll ok buf ds = (buf ++ ds, []) := by
  have := acceptAll_append ok ds h buf []
  rw [List.append_nil] at this
  rw [this, acceptAll_nil]

theorem floatTokenNumber_decimal (buf ds : Str) (fp : Option Str)
    (hds : ∀ c ∈ ds, c.isDigit = true) (hfp : ∀ f, fp = some f → ∀ c ∈ f, c.isDigit = true) :
    floatTokenNumber false (buf, ds ++ fracText fp) = (buf ++ ds ++ fracText fp, []) := by
  have hd : ∀ c ∈ ds, decimalDigitsU.contains c = true :=
    fun c hc => digit_decimalDigitsU c (hds c hc)
  unfold floatTokenNumber
  simp only [Bool.false_eq_true, if_false]
  cases fp with
  | none =>
    simp only [fracText, List.append_nil, acceptAll_all _ _ _ hd]
    rfl
  | some f =>
    have h₁ := acceptAll_append decimalDigitsU ds hd buf ('.' :: f)
    have h₂ : acceptAll decimalDigitsU (buf ++ ds) ('.' :: f) = (buf ++ ds, '.' :: f) := by
      rw [acceptAll]
      have : decimalDigitsU.contains '.' = false := by decide
      simp only [this]
      rfl
    have h₃ : acceptAll decimalDigitsU (buf ++ ds ++ ['.']) f = (buf ++ ds ++ ['.'] ++ f, []) :=
      acceptAll_all _ _ _ (fun c hc => digit_decimalDigitsU c (hfp f rfl c hc))
    have h₄ : accept ['.'] (buf ++ ds, '.' :: f) = (true, (buf ++ ds ++ ['.'], f)) :=
      accept_true _ _ _ _ (by decide)
    simp only [fracText, h₁, h₂, h₄, if_true, h₃]
    simp [accept]

theorem accept_cons_false (ok buf : Str) (c : Char) (r : Str) (h : ok.contains c = false) :
    accept ok (buf, c :: r) = (false, (buf, c :: r)) := by
  simp only [accept, h]
  rfl

theorem floatTokenUnsigned_decimal (buf : Str) (c₀ : Char) (ip : Str) (fp : Option Str)
    (hc₀ : c₀.isDigit = true) (hip : ∀ c ∈ ip, c.isDigit = true)
    (hfp : ∀ f, fp = some f → ∀ c ∈ f, c.isDigit = true) :
    floatTokenUnsigned (buf, c₀ :: ip ++ fracText fp) = (buf ++ c₀ :: ip ++ fracText fp, []) := by
  have hi : accept ['i', 'I'] (buf, c₀ :: ip ++ fracText fp) =
      (false, (buf, c₀ :: ip ++ fracText fp)) :=
    accept_cons_false _ _ _ _ (contains_false_of_digit _ (by decide) c₀ hc₀)
  have hx : accept ['x', 'X'] (buf ++ [c₀], ip ++ fracText fp) =
      (false, (buf ++ [c₀], ip ++ fracText fp)) := by
    apply accept_false
    intro c hc
    rcases List.mem_append.mp hc with h | h
    · exact contains_false_of_digit _ (by decide) c (hip c h)
    · cases fp with
      | none => simp [fracText] at h
      | some f =>
        rcases List.mem_cons.mp h with h | h
        · subst h; decide
        · exact contains_false_of_digit _ (by decide) c (hfp f rfl c h)
  unfold floatTokenUnsigned
  simp only [hi, Bool.false_eq_true, if_false]
  by_cases hz : c₀ = '0'
  · have hz₁ : accept ['0'] (buf, c₀ :: ip ++ fracText fp) =
        (true, (buf ++ [c₀], ip ++ fracText fp)) :=
      accept_true _ _ _ _ (by subst hz; decide)
    simp only [hz₁, if_true, hx]
    rw [floatTokenNumber_decimal _ _ _ hip hfp]
    simp
  · have hz₁ : accept ['0'] (buf, c₀ :: ip ++ fracText fp) =
        (false, (buf, c₀ :: ip ++ fracText fp)) :=
      accept_cons_false _ _ _ _ (by simpa using hz)
    simp only [hz₁, Bool.false_eq_true, if_false]
    have := floatTokenNumber_decimal buf (c₀ :: ip) fp
      (fun c hc => by
        rcases List.mem_cons.mp hc with h | h
        · subst h; exact hc₀
        · exact hip c h) hfp
    simpa using this

theorem pushDigits_eq (ds : Str) : ∀ st : Mantissa,
    pushDigits st ds =
      { value := ds.foldl (fun acc c => acc * 10 + digitVal c) st.value
        fracDigits := if st.sawdot then st.fracDigits + ds.length else st.fracDigits
        sawdot := st.sawdot
        sawdigits := st.sawdigits || !ds.isEmpty
        underscores := st.underscores } := by
  induction ds with
  | nil => intro st; simp [pushDigits]
  | cons c ds ih =>
    intro st
    have := ih (st.push 10 (digitVal c))
    simp only [pushDigits, List.foldl_cons] at this ⊢
    rw [this]
    cases hs : st.sawdot <;> simp [Mantissa.push, hs, Nat.add_assoc, Nat.add_comm 1]

theorem mantissaLoop_digits (ds : Str) (hds : ∀ c ∈ ds, c.isDigit = true) :
    ∀ (st : Mantissa) (r : Str),
      mantissaLoop false st (ds ++ r) = mantissaLoop false (pushDigits st ds) r := by
  induction ds with
  | nil => intro st r; rfl
  | cons c ds ih =>
    intro st r
    have hc := hds c (List.mem_cons_self _ _)
    have hne : ∀ d ∈ "0123456789".toList, d ≠ '_' ∧ d ≠ '.' := by decide
    obtain ⟨h₁, h₂⟩ := hne c (digit_mem c hc)
    show mantissaLoop false st (c :: (ds ++ r)) = _
    simp only [mantissaLoop, h₁, h₂, hc, if_false, if_true, Bool.false_eq_true]
    rw [ih (fun c₁ hm => hds c₁ (List.mem_cons_of_mem _ hm))]
    rfl

theorem mantissaLoop_decimal (ip : Str) (fp : Option Str)
    (hip : ∀ c ∈ ip, c.isDigit = true) (hfp : ∀ f, fp = some f → ∀ c ∈ f, c.isDigit = true) :
    mantissaLoop false ⟨0, 0, false, false, false⟩ (ip ++ fracText fp) =
      (⟨digitsValue (ip ++ fp.getD []), (fp.getD []).length, fp.isSome, !ip.isEmpty || !(fp.getD []).isEmpty,
        false⟩, []) := by
  rw [mantissaLoop_digits ip hip, pushDigits_eq]
  cases fp with
  | none =>
    simp [fracText, mantissaLoop, digitsValue]
  | some f =>
    have := mantissaLoop_digits f (hfp f rfl)
      { value := List.foldl (fun acc c => acc * 10 + digitVal c) 0 ip, fracDigits := 0,
        sawdot := true, sawdigits := !ip.isEmpty, underscores := false } []
    rw [List.append_nil] at this
    simp only [fracText, mantissaLoop]
    simp only [Bool.false_eq_true, if_false, if_true, Bool.false_or, List.length_nil,
      Option.getD_some, Option.isSome_some]
    simp at this ⊢
    rw [this, pushDigits_eq]
    simp [mantissaLoop, digitsValue]

theorem stripHexPrefix_plain (s : Str) (h : ∀ c ∈ s, c ≠ 'x' ∧ c ≠ 'X') :
    stripHexPrefix s = (false, s) := by
  unfold stripHexPrefix
  split
  · rename_i x c r
    have hx := h x (by simp)
    simp [hx.1, hx.2]
  · rfl

theorem stripSign_digit (c : Char) (r : Str) (hc : c.isDigit = true) :
    stripSign (c :: r) = (false, c :: r) := by
  have hne : ∀ d ∈ "0123456789".toList, d ≠ '+' ∧ d ≠ '-' := by decide
  obtain ⟨h₁, h₂⟩ := hne c (digit_mem c hc)
  unfold stripSign
  split
  · rename_i heq
    simp only [List.cons.injEq] at heq
    exact absurd heq.1 h₁
  · rename_i heq
    simp only [List.cons.injEq] at heq
    exact absurd heq.1 h₂
  · rfl

/-- The characters of an unsigned decimal numeral are digits and the point. -/
theorem mem_unsigned (ip : Str) (fp : Option Str)
    (hip : ∀ c ∈ ip, c.isDigit = true) (hfp : ∀ f, fp = some f → ∀ c ∈ f, c.isDigit = true)
    (c : Char) (hc : c ∈ ip ++ fracText fp) : c.isDigit = true ∨ c = '.' := by
  rcases List.mem_append.mp hc with h | h
  · exact Or.inl (hip c h)
  · cases fp with
    | none => simp [fracText] at h
    | some f =>
      rcases List.mem_cons.mp h with h | h
      · exact Or.inr h
      · exact Or.inl (hfp f rfl c h)

theorem readFloat_decimal (sign ip : Str) (fp : Option Str)
    (hsign : sign = [] ∨ sign = ['+'] ∨ sign = ['-']) (hne : ip ≠ [])
    (hip : ∀ c ∈ ip, c.isDigit = true) (hfp : ∀ f, fp = some f → ∀ c ∈ f, c.isDigit = true) :
    readFloat (sign ++ ip ++ fracText fp) =
      some ⟨decide (sign = ['-']), false, digitsValue (ip ++ fp.getD []), (fp.getD []).length,
        0, []⟩ := by
  obtain ⟨c₀, ip₁, rfl⟩ := List.exists_cons_of_ne_nil hne
  have hc₀ := hip c₀ (List.mem_cons_self _ _)
  have hsg : stripSign (sign ++ (c₀ :: ip₁) ++ fracText fp) =
      (decide (sign = ['-']), (c₀ :: ip₁) ++ fracText fp) := by
    rcases hsign with rfl | rfl | rfl
    · simpa using stripSign_digit c₀ (ip₁ ++ fracText fp) hc₀
    · rfl
    · rfl
  have hhex : stripHexPrefix ((c₀ :: ip₁) ++ fracText fp) = (false, (c₀ :: ip₁) ++ fracText fp) := by
    apply stripHexPrefix_plain
    intro c hc
    have hd : ∀ d ∈ "0123456789".toList, d ≠ 'x' ∧ d ≠ 'X' := by decide
    rcases mem_unsigned _ fp hip hfp c hc with h | h
    · exact hd c (digit_mem c h)
    · subst h; decide
  have hm := mantissaLoop_decimal (c₀ :: ip₁) fp hip hfp
  unfold readFloat
  simp only [hsg, hhex, hm]
  simp [readFloatFinish]

theorem special_decimal (sign ip : Str) (fp : Option Str)
    (hsign : sign = [] ∨ sign = ['+'] ∨ sign = ['-']) (hne : ip ≠ [])
    (hip : ∀ c ∈ ip, c.isDigit = true) :
    special (sign ++ ip ++ fracText fp) = none := by
  obtain ⟨c₀, ip₁, rfl⟩ := List.exists_cons_of_ne_nil hne
  have hc₀ := digit_mem c₀ (hip c₀ (List.mem_cons_self _ _))
  have hd : ∀ d ∈ "0123456789".toList, d ≠ '+' ∧ d ≠ '-' ∧ d ≠ 'i' ∧ d ≠ 'I' ∧ d ≠ 'n' ∧
      d ≠ 'N' ∧ d.toLower ≠ 'i' := by decide
  obtain ⟨h₁, h₂, h₃, h₄, h₅, h₆, h₇⟩ := hd c₀ hc₀
  have hinf : ∀ neg k r, specialInf neg k (c₀ :: r) = none := by
    intro neg k r
    simp [specialInf, commonPrefixLenIgnoreCase, h₇]
  rcases hsign with rfl | rfl | rfl
  · simp [special, h₁, h₂, h₃, h₄, h₅, h₆]
  · simp [special, hinf]
  · simp [special, hinf]

theorem parseFloat_decimal (sign ip : Str) (fp : Option Str)
    (hsign : sign = [] ∨ sign = ['+'] ∨ sign = ['-']) (hne : ip ≠ [])
    (hip : ∀ c ∈ ip, c.isDigit = true) (hfp : ∀ f, fp = some f → ∀ c ∈ f, c.isDigit = true) :
    parseFloat (sign ++ ip ++ fracText fp) =
      rangeChecked (roundToF64 (decide (sign = ['-'])) (digitsValue (ip ++ fp.getD []))
          (10 ^ (fp.getD []).length)) := by
  unfold parseFloat
  rw [special_decimal sign ip fp hsign hne hip, readFloat_decimal sign ip fp hsign hne hip hfp]
  simp only [ne_eq, not_true_eq_false, if_false, ReadFloat.toF64, Bool.false_eq_true]
  by_cases hlen : (fp.getD []).length = 0
  · simp [hlen]
  · have : ¬ (0 : Int) ≤ 0 - ((fp.getD []).length : Int) := by omega
    simp only [this, if_false]
    have h₂ : (-(0 - ((fp.getD []).length : Int))).toNat = (fp.getD []).length := by omega
    rw [h₂]

theorem skipSpace_decimal (sign ip : Str) (fp : Option Str)
    (hsign : sign = [] ∨ sign = ['+'] ∨ sign = ['-']) (hne : ip ≠ [])
    (hip : ∀ c ∈ ip, c.isDigit = true) :
    ∃ c r, sign ++ ip ++ fracText fp = c :: r ∧
      skipSpace (sign ++ ip ++ fracText fp) = some (c :: r) := by
  obtain ⟨c₀, ip₁, rfl⟩ := List.exists_cons_of_ne_nil hne
  have hd : ∀ d ∈ "0123456789".toList, d ≠ '\n' ∧ isSpace d = false := by decide
  obtain ⟨h₁, h₂⟩ := hd c₀ (digit_mem c₀ (hip c₀ (List.mem_cons_self _ _)))
  rcases hsign with rfl | rfl | rfl
  · exact ⟨c₀, ip₁ ++ fracText fp, rfl, by simp [skipSpace, h₁, h₂]⟩
  · have hp : isSpace '+' = false := by decide
    exact ⟨'+', c₀ :: ip₁ ++ fracText fp, rfl, by simp [skipSpace, hp]⟩
  · have hp : isSpace '-' = false := by decide
    exact ⟨'-', c₀ :: ip₁ ++ fracText fp, rfl, by simp [skipSpace, hp]⟩

theorem floatToken_decimal (sign ip : Str) (fp : Option Str)
    (hsign : sign = [] ∨ sign = ['+'] ∨ sign = ['-']) (hne : ip ≠ [])
    (hip : ∀ c ∈ ip, c.isDigit = true) (hfp : ∀ f, fp = some f → ∀ c ∈ f, c.isDigit = true) :
    floatToken (sign ++ ip ++ fracText fp) = (sign ++ ip ++ fracText fp, []) := by
  obtain ⟨c₀, ip₁, rfl⟩ := List.exists_cons_of_ne_nil hne
  have hc₀ := hip c₀ (List.mem_cons_self _ _)
  have hip₁ : ∀ c ∈ ip₁, c.isDigit = true := fun c hc => hip c (List.mem_cons_of_mem _ hc)
  have hu := fun buf => floatTokenUnsigned_decimal buf c₀ ip₁ fp hc₀ hip₁ hfp
  unfold floatToken
  rcases hsign with rfl | rfl | rfl
  · have hn : accept ['n', 'N'] ([], c₀ :: ip₁ ++ fracText fp) =
        (false, ([], c₀ :: ip₁ ++ fracText fp)) :=
      accept_cons_false _ _ _ _ (contains_false_of_digit _ (by decide) c₀ hc₀)
    have hs : accept ['+', '-'] ([], c₀ :: ip₁ ++ fracText fp) =
        (false, ([], c₀ :: ip₁ ++ fracText fp)) :=
      accept_cons_false _ _ _ _ (contains_false_of_digit _ (by decide) c₀ hc₀)
    simp only [List.nil_append, hn, Bool.false_eq_true, if_false, hs, hu]
  · have hn : accept ['n', 'N'] ([], '+' :: (c₀ :: ip₁ ++ fracText fp)) =
        (false, ([], '+' :: (c₀ :: ip₁ ++ fracText fp))) :=
      accept_cons_false _ _ _ _ (by decide)
    have hs : accept ['+', '-'] ([], '+' :: (c₀ :: ip₁ ++ fracText fp)) =
        (true, ([] ++ ['+'], c₀ :: ip₁ ++ fracText fp)) :=
      accept_true _ _ _ _ (by decide)
    simp only [List.cons_append, List.nil_append, List.append_assoc] at hn hs ⊢
    simp only [hn, Bool.false_eq_true, if_false, hs]
    have := hu ['+']
    simp only [List.cons_append, List.nil_append, List.append_assoc] at this
    exact this
  · have hn : accept ['n', 'N'] ([], '-' :: (c₀ :: ip₁ ++ fracText fp)) =
        (false, ([], '-' :: (c₀ :: ip₁ ++ fracText fp))) :=
      accept_cons_false _ _ _ _ (by decide)
    have hs : accept ['+', '-'] ([], '-' :: (c₀ :: ip₁ ++ fracText fp)) =
        (true, ([] ++ ['-'], c₀ :: ip₁ ++ fracText fp)) :=
      accept_true _ _ _ _ (by decide)
    simp only [List.cons_append, List.nil_append, List.append_assoc] at hn hs ⊢
    simp only [hn, Bool.false_eq_true, if_false, hs]
    have := hu ['-']
    simp only [List.cons_append, List.nil_append, List.append_assoc] at this
    exact this

theorem contains_p_decimal (sign ip : Str) (fp : Option Str)
    (hsign : sign = [] ∨ sign = ['+'] ∨ sign = ['-'])
    (hip : ∀ c ∈ ip, c.isDigit = true) (hfp : ∀ f, fp = some f → ∀ c ∈ f, c.isDigit = true) :
    (sign ++ ip ++ fracText fp).contains 'p' = false := by
  have hd : ∀ d ∈ "0123456789".toList, d ≠ 'p' := by decide
  have hu : 'p' ∉ ip ++ fracText fp := by
    intro hmem
    rcases mem_unsigned ip fp hip hfp 'p' hmem with h | h
    · exact hd 'p' (digit_mem 'p' h) rfl
    · exact absurd h (by decide)
  have hs : 'p' ∉ sign := by
    rcases hsign with rfl | rfl | rfl <;> decide
  rw [List.append_assoc]
  simp only [List.contains_eq_any_beq, List.any_eq_false, beq_iff_eq]
  intro c hc
  rcases List.mem_append.mp hc with h | h
  · rintro rfl; exact hs h
  · rintro rfl; exact hu h

theorem sscanFloat_decimal (sign ip : Str) (fp : Option Str)
    (hsign : sign = [] ∨ sign = ['+'] ∨ sign = ['-']) (hne : ip ≠ [])
    (hip : ∀ c ∈ ip, c.isDigit = true) (hfp : ∀ f, fp = some f → ∀ c ∈ f, c.isDigit = true)
    (hlen : (sign ++ ip ++ fracText fp).length ≤ hugeWid) :
    sscanFloat (sign ++ ip ++ fracText fp) =
      rangeChecked (roundToF64 (decide (sign = ['-'])) (digitsValue (ip ++ fp.getD []))
          (10 ^ (fp.getD []).length)) := by
  obtain ⟨c, r, htext, hskip⟩ := skipSpace_decimal sign ip fp hsign hne hip
  have htok := floatToken_decimal sign ip fp hsign hne hip hfp
  have hp := contains_p_decimal sign ip fp hsign hip hfp
  unfold sscanFloat
  rw [List.take_of_length_le hlen, hskip]
  simp only
  rw [← htext, htok]
  simp only [convertFloat, hp, Bool.false_and, Bool.false_eq_true, if_false]
  exact parseFloat_decimal sign ip fp hsign hne hip hfp

theorem normalizePercent_decimal (sign ip : Str) (fp : Option Str)
    (hsign : sign = [] ∨ sign = ['+'] ∨ sign = ['-']) (hne : ip ≠ [])
    (hip : ∀ c ∈ ip, c.isDigit = true) (hfp : ∀ f, fp = some f → ∀ c ∈ f, c.isDigit = true)
    (hlen : (sign ++ ip ++ fracText fp).length ≤ hugeWid) :
    normalizePercent (sign ++ ip ++ fracText fp ++ ['%']) =
      storedPercent (decide (sign = ['-'])) (digitsValue (ip ++ fp.getD []))
        (10 ^ (fp.getD []).length) := by
  unfold normalizePercent storedPercent
  simp only [trimSuffix_append, sscanFloat_decimal sign ip fp hsign hne hip hfp hlen]

/-! ### Auxiliary facts -/

theorem split_ne_nil (sep : Char) (s : Str) : split sep s ≠ [] := by
  cases s with
  | nil => simp [split]
  | cons c r =>
    unfold split
    split_ifs
    · simp
    · split <;> simp

theorem split_length_ne_zero (sep : Char) (s : Str) : (split sep s).length ≠ 0 := by
  intro h
  exact split_ne_nil sep s (List.length_eq_zero.mp h)

theorem lt_zero_fin (neg : Bool) (m : Nat) (e : Int) :
    F64.lt (.fin neg m e) F64.zero = (neg && decide (0 < m)) := by
  have h0 : ∀ k : Nat, (0 : Nat) <<< k = 0 := fun k => by simp
  cases neg <;> simp [F64.lt, F64.zero, F64.align, h0, Nat.shiftLeft_eq]

theorem pollSymbols_eq (net : Nat → Str → HttpResult) (apiKey : Str) (symbols : List Str) :
    ∀ k, pollSymbols net apiKey k symbols =
      (symbols.enumFrom k).map fun p =>
        match getStockData (net p.1) p.2 apiKey with
        | .error err => fetchErrorLine p.2 err
        | .ok data => displayStockData data := by
  induction symbols with
  | nil => intro k; rfl
  | cons symbol rest ih =>
    intro k
    simp only [pollSymbols, List.enumFrom_cons, List.map_cons, ih (k + 1)]

theorem lookupField_globalQuote_none (key : Str)
    (h : foldName key ≠ foldName globalQuoteName) :
    lookupField [(globalQuoteName, ())] key = none := by
  have h₁ : globalQuoteName ≠ key := by
    rintro rfl
    exact h rfl
  have h₂ : foldName globalQuoteName ≠ foldName key := fun e => h e.symm
  simp [lookupField, List.find?, h₁, h₂]

theorem decodeResponseMembers_unmatched (resp : AlphaVantageResponse) :
    ∀ members : List (Str × JSON),
      (∀ kv ∈ members, foldName kv.1 ≠ foldName globalQuoteName) →
      decodeResponseMembers resp members = some resp := by
  intro members
  induction members with
  | nil => intro _; rfl
  | cons kv rest ih =>
    intro h
    have hkv := lookupField_globalQuote_none kv.1 (h kv (List.mem_cons_self _ _))
    have hrest := ih fun kv₁ hmem => h kv₁ (List.mem_cons_of_mem _ hmem)
    simp only [decodeResponseMembers, hkv, hrest]

/-! ### The integer scan reads a decimal numeral with an optional sign -/

theorem digits_contains (c : Char) (h : c.isDigit = true) :
    "0123456789".toList.contains c = true := by
  have key : ∀ d ∈ "0123456789".toList, "0123456789".toList.contains d = true := by decide
  exact key c (digit_mem c h)

theorem digits_not_contains (c : Char) (h : c.isDigit = false) :
    "0123456789".toList.contains c = false := by
  have key : ∀ d ∈ "0123456789".toList, d.isDigit = true := by decide
  cases hc : "0123456789".toList.contains c with
  | false => rfl
  | true =>
    have hm : c ∈ "0123456789".toList := by simpa using hc
    rw [key c hm] at h
    exact absurd h (by decide)

theorem acceptAll_stop (ok buf tail : Str) (h : ∀ c r, tail = c :: r → ok.contains c = false) :
    acceptAll ok buf tail = (buf, tail) := by
  cases tail with
  | nil => rfl
  | cons c r =>
    rw [acceptAll]
    simp only [h c r rfl]
    rfl

theorem parseInt_numeral (sign ds : Str)
    (hsign : sign = [] ∨ sign = ['+'] ∨ sign = ['-']) (hne : ds ≠ [])
    (hds : ∀ c ∈ ds, c.isDigit = true) :
    parseInt (sign ++ ds) =
      if sign = ['-'] then
        (if digitsValue ds ≤ 2 ^ 63 then some (-(digitsValue ds : Int)) else none)
      else (if digitsValue ds < 2 ^ 63 then some (digitsValue ds : Int) else none) := by
  obtain ⟨c₀, ds₁, rfl⟩ := List.exists_cons_of_ne_nil hne
  have hc₀ := hds c₀ (List.mem_cons_self _ _)
  have hall : (c₀ :: ds₁).all Char.isDigit = true := by
    rw [List.all_eq_true]
    exact hds
  have hsg : stripSign (sign ++ c₀ :: ds₁) = (decide (sign = ['-']), c₀ :: ds₁) := by
    rcases hsign with rfl | rfl | rfl
    · simpa using stripSign_digit c₀ ds₁ hc₀
    · rfl
    · rfl
  unfold parseInt
  simp only [hsg, hall]
  rcases hsign with rfl | rfl | rfl <;> simp

theorem sscanInt_cons (c : Char) (r : Str) (h₁ : c ≠ '\n') (h₂ : isSpace c = false)
    (hlen : (c :: r).length ≤ hugeWid) :
    sscanInt (c :: r) =
      if (accept "0123456789".toList (accept ['+', '-'] ([], c :: r)).2).1 = true then
        parseInt (acceptAll "0123456789".toList
          (accept "0123456789".toList (accept ['+', '-'] ([], c :: r)).2).2.1
          (accept "0123456789".toList (accept ['+', '-'] ([], c :: r)).2).2.2).1
      else none := by
  unfold sscanInt
  rw [List.take_of_length_le hlen]
  simp only [skipSpace, h₁, h₂, if_false, Bool.false_eq_true]

theorem sscanInt_numeral (sign ds tail : Str)
    (hsign : sign = [] ∨ sign = ['+'] ∨ sign = ['-']) (hne : ds ≠ [])
    (hds : ∀ c ∈ ds, c.isDigit = true)
    (htail : ∀ c r, tail = c :: r → c.isDigit = false)
    (hlen : (sign ++ ds ++ tail).length ≤ hugeWid) :
    sscanInt (sign ++ ds ++ tail) = parseInt (sign ++ ds) := by
  obtain ⟨c₀, ds₁, rfl⟩ := List.exists_cons_of_ne_nil hne
  have hc₀ := hds c₀ (List.mem_cons_self _ _)
  have hds₁ : ∀ c ∈ ds₁, "0123456789".toList.contains c = true :=
    fun c hc => digits_contains c (hds c (List.mem_cons_of_mem _ hc))
  have hd : ∀ d ∈ "0123456789".toList, d ≠ '\n' ∧ isSpace d = false := by decide
  obtain ⟨h₁, h₂⟩ := hd c₀ (digit_mem c₀ hc₀)
  have hrest : ∀ buf, acceptAll "0123456789".toList buf (ds₁ ++ tail) = (buf ++ ds₁, tail) := by
    intro buf
    rw [acceptAll_append _ ds₁ hds₁, acceptAll_stop]
    exact fun c r hcr => digits_not_contains c (htail c r hcr)
  have hdig : ∀ buf, accept "0123456789".toList (buf, c₀ :: (ds₁ ++ tail)) =
      (true, (buf ++ [c₀], ds₁ ++ tail)) :=
    fun buf => accept_true _ _ _ _ (digits_contains c₀ hc₀)
  have hs : accept ['+', '-'] ([], c₀ :: (ds₁ ++ tail)) = (false, ([], c₀ :: (ds₁ ++ tail))) :=
    accept_cons_false _ _ _ _ (contains_false_of_digit _ (by decide) c₀ hc₀)
  have hsg : ∀ c, ['+', '-'].contains c = true →
      accept ['+', '-'] ([], c :: c₀ :: (ds₁ ++ tail)) = (true, ([c], c₀ :: (ds₁ ++ tail))) :=
    fun c hc => accept_true _ _ _ _ hc
  rcases hsign with rfl | rfl | rfl
  · have ht : [] ++ c₀ :: ds₁ ++ tail = c₀ :: (ds₁ ++ tail) := rfl
    rw [ht] at hlen ⊢
    rw [sscanInt_cons c₀ _ h₁ h₂ hlen, hs, hdig, hrest]
    rfl
  · have ht : ['+'] ++ c₀ :: ds₁ ++ tail = '+' :: c₀ :: (ds₁ ++ tail) := rfl
    rw [ht] at hlen ⊢
    rw [sscanInt_cons '+' _ (by decide) (by decide) hlen, hsg '+' (by decide), hdig, hrest]
    rfl
  · have ht : ['-'] ++ c₀ :: ds₁ ++ tail = '-' :: c₀ :: (ds₁ ++ tail) := rfl
    rw [ht] at hlen ⊢
    rw [sscanInt_cons '-' _ (by decide) (by decide) hlen, hsg '-' (by decide), hdig, hrest]
    rfl


theorem sscanInt_numeral_value (sign ds tail : Str)
    (hsign : sign = [] ∨ sign = ['+'] ∨ sign = ['-']) (hne : ds ≠ [])
    (hds : ∀ c ∈ ds, c.isDigit = true)
    (htail : ∀ c r, tail = c :: r → c.isDigit = false)
    (hlen : (sign ++ ds ++ tail).length ≤ hugeWid) :
    sscanInt (sign ++ ds ++ tail) =
      if -(2 ^ 63) ≤ numeralValue sign ds ∧ numeralValue sign ds < 2 ^ 63 then
        some (numeralValue sign ds)
      else none := by
  rw [sscanInt_numeral sign ds tail hsign hne hds htail hlen,
    parseInt_numeral sign ds hsign hne hds]
  unfold numeralValue
  by_cases hs : sign = ['-']
  · simp only [hs, if_true]
    by_cases h : digitsValue ds ≤ 2 ^ 63
    · have h₂ : -(2 ^ 63 : Int) ≤ -(digitsValue ds : Int) ∧ -(digitsValue ds : Int) < 2 ^ 63 := by
        have : (digitsValue ds : Int) ≤ 2 ^ 63 := by exact_mod_cast h
        constructor <;> omega
      rw [if_pos h, if_pos h₂]
    · have h₂ : ¬ (-(2 ^ 63 : Int) ≤ -(digitsValue ds : Int) ∧
          -(digitsValue ds : Int) < 2 ^ 63) := by
        intro h₃
        apply h
        have : (digitsValue ds : Int) ≤ 2 ^ 63 := by omega
        exact_mod_cast this
      rw [if_neg h, if_neg h₂]
  · simp only [hs, if_false]
    by_cases h : digitsValue ds < 2 ^ 63
    · have h₂ : -(2 ^ 63 : Int) ≤ (digitsValue ds : Int) ∧ (digitsValue ds : Int) < 2 ^ 63 := by
        have : (digitsValue ds : Int) < 2 ^ 63 := by exact_mod_cast h
        constructor <;> omega
      rw [if_pos h, if_pos h₂]
    · have h₂ : ¬ (-(2 ^ 63 : Int) ≤ (digitsValue ds : Int) ∧
          (digitsValue ds : Int) < 2 ^ 63) := by
        intro h₃
        apply h
        exact_mod_cast h₃.2
      rw [if_neg h, if_neg h₂]

/-! ### Printed pieces without a newline -/

theorem digitChar_ne_newline (n : Nat) : Nat.digitChar (n % 10) ≠ '\n' := by
  have key : ∀ k < 10, Nat.digitChar k ≠ '\n' := by decide
  exact key _ (Nat.mod_lt _ (by decide))

theorem toDigitsCore_newlineFree (fuel : Nat) : ∀ (n : Nat) (acc : Str),
    newlineFree acc → newlineFree (Nat.toDigitsCore 10 fuel n acc) := by
  induction fuel with
  | zero => intro n acc h; exact h
  | succ fuel ih =>
    intro n acc h
    have hcons : newlineFree (Nat.digitChar (n % 10) :: acc) := by
      intro hm
      rcases List.mem_cons.mp hm with h₁ | h₁
      · exact digitChar_ne_newline _ h₁.symm
      · exact h h₁
    simp only [Nat.toDigitsCore]
    split_ifs
    · exact hcons
    · exact ih _ _ hcons

theorem newlineFree_append (s t : Str) (hs : newlineFree s) (ht : newlineFree t) :
    newlineFree (s ++ t) := by
  intro hm
  rcases List.mem_append.mp hm with h | h
  · exact hs h
  · exact ht h

theorem renderHundredths_newlineFree (h : Nat) : newlineFree (renderHundredths h) := by
  unfold renderHundredths
  apply newlineFree_append
  · exact toDigitsCore_newlineFree _ _ _ (by simp [newlineFree])
  · intro hm
    simp only [List.mem_cons, List.mem_singleton, List.not_mem_nil, or_false] at hm
    rcases hm with h₁ | h₁ | h₁
    · exact absurd h₁ (by decide)
    · exact digitChar_ne_newline _ h₁.symm
    · exact digitChar_ne_newline _ h₁.symm

theorem formatFixed2_newlineFree (f : F64) : newlineFree (formatFixed2 f) := by
  cases f with
  | nan => unfold formatFixed2 newlineFree; decide
  | inf neg => cases neg <;> (unfold formatFixed2 newlineFree; decide)
  | fin neg m e =>
    unfold formatFixed2
    apply newlineFree_append
    · cases neg <;> (unfold newlineFree; decide)
    · exact renderHundredths_newlineFree _

theorem getStockData_percent_newlineFree (get : Str → HttpResult) (symbol apiKey : Str)
    (data : StockData) (h : getStockData get symbol apiKey = .ok data) :
    newlineFree data.ChangePercent := by
  unfold getStockData at h
  split at h
  · cases h
  · cases h
  · split at h
    · cases h
    · cases h
      exact newlineFree_append _ _ (formatFixed2_newlineFree _) (by unfold newlineFree; decide)

theorem render_single_line (paint : Color → Str → Str) (errText : GoError → Str) (l : Line)
    (h : ∀ seg ∈ l, newlineFree (seg.render paint errText)) :
    ∃ t, newlineFree t ∧ l.render paint errText = t ++ ['\n'] := by
  refine ⟨(l.map (Seg.render paint errText)).flatten, ?_, rfl⟩
  intro hm
  obtain ⟨s, hs, hc⟩ := List.mem_flatten.mp hm
  obtain ⟨seg, hseg, rfl⟩ := List.mem_map.mp hs
  exact h seg hseg hc

theorem pollSymbols_append (net : Nat → Str → HttpResult) (apiKey : Str) (pre post : List Str) :
    ∀ k, pollSymbols net apiKey k (pre ++ post) =
      pollSymbols net apiKey k pre ++ pollSymbols net apiKey (k + pre.length) post := by
  induction pre with
  | nil => intro k; rfl
  | cons s pre ih =>
    intro k
    rw [List.cons_append, pollSymbols, pollSymbols, ih (k + 1), List.length_cons,
      List.cons_append, Nat.add_assoc, Nat.add_comm 1]

theorem mem_enumFrom_snd (symbols : List Str) : ∀ (k : Nat) (p : Nat × Str),
    p ∈ symbols.enumFrom k → p.2 ∈ symbols := by
  induction symbols with
  | nil => intro k p h; simp at h
  | cons s rest ih =>
    intro k p h
    rw [List.enumFrom_cons] at h
    rcases List.mem_cons.mp h with h₁ | h₁
    · subst h₁
      exact List.mem_cons_self _ _
    · exact List.mem_cons_of_mem _ (ih _ _ h₁)

/-! ### The claims -/

/-- C1 (as stated, refuted): for the change-percent text `2.675%` the stored text is
`2.67%`, while 2.675 rounded to 2 decimals is 2.68; the same holds for
`2.67500000000000001%`, a number that is strictly nearer to 2.68 than to any other
count of hundredths. -/
theorem getStockData_percent_not_decimal_rounding :
    getStockData (fun _ => .response 200 (.ok (percentBody "2.675%".toList))) "MSFT".toList
      "demo".toList = .ok ⟨[], F64.zero, F64.zero, "2.67%".toList⟩ ∧
    specRounded2 2675 1000 = "2.68".toList ∧
    getStockData (fun _ => .response 200 (.ok (percentBody "2.67500000000000001%".toList)))
      "MSFT".toList "demo".toList = .ok ⟨[], F64.zero, F64.zero, "2.67%".toList⟩ ∧
    specRounded2 267500000000000001 100000000000000000 = "2.68".toList ∧
    2 * (268 * 100000000000000000 - 267500000000000001 * 100) < 100000000000000000 := by
  decide

/-- C1 (amended): when `json.Unmarshal` accepts the body and the change-percent text is
a decimal numeral (an optional sign, digits, optionally a point and digits, at most
`hugeWid` characters in all) followed by `%`, `getStockData` strips the `%`, scans the
whole numeral and stores the `%.2f` form of the `float64` nearest to the number, that
is the binary value rounded to two decimals (ties to even), or `0.00%` when the
nearest `float64` is an infinity; for `1.2345%` the stored text is `1.23%`. -/
theorem getStockData_percent_decimal (get : Str → HttpResult) (symbol apiKey : Str)
    (status : Nat) (body : Str) (response : AlphaVantageResponse) (sign ip : Str)
    (fp : Option Str)
    (hget : get (quoteURL symbol apiKey) = .response status (.ok body))
    (hdec : jsonUnmarshal body = .ok response)
    (hsign : sign = [] ∨ sign = ['+'] ∨ sign = ['-']) (hne : ip ≠ [])
    (hip : ∀ c ∈ ip, c.isDigit = true) (hfp : ∀ f, fp = some f → ∀ c ∈ f, c.isDigit = true)
    (hlen : (sign ++ ip ++ fracText fp).length ≤ hugeWid)
    (htext : response.GlobalQuote.ChangePercent = sign ++ ip ++ fracText fp ++ ['%']) :
    getStockData get symbol apiKey =
      .ok { response.GlobalQuote with
            ChangePercent := storedPercent (decide (sign = ['-']))
              (digitsValue (ip ++ fp.getD [])) (10 ^ (fp.getD []).length) } ∧
    storedPercent false 12345 10000 = "1.23%".toList := by
  refine ⟨?_, by decide⟩
  simp only [getStockData, hget, hdec, htext,
    normalizePercent_decimal sign ip fp hsign hne hip hfp hlen]

theorem getStockData_percent_decimal_witness :
    getStockData (fun _ => .response 200 (.ok (percentBody "1.2345%".toList))) "MSFT".toList
      "demo".toList = .ok ⟨[], F64.zero, F64.zero, "1.23%".toList⟩ :=
  (getStockData_percent_decimal (fun _ => .response 200 (.ok (percentBody "1.2345%".toList)))
    "MSFT".toList "demo".toList 200 (percentBody "1.2345%".toList)
    ⟨⟨[], F64.zero, F64.zero, "1.2345%".toList⟩⟩ [] ['1'] (some "2345".toList)
    rfl (by decide) (by decide) (by decide) (by decide) (by decide) (by decide)
    rfl).1.trans (by decide)

/-- C2 (as stated, refuted): a body that is well-formed JSON and whose change-percent
text is `abc%`, but whose price text is not a number, makes `getStockData` fail. -/
theorem getStockData_bad_price_fails :
    parseJSON badPriceBody = some (.object [("Global Quote".toList,
      .object [("05. price".toList, .string "n/a".toList),
        ("10. change percent".toList, .string "abc%".toList)])]) ∧
    getStockData (fun _ => .response 200 (.ok badPriceBody)) "MSFT".toList "demo".toList =
      .error .jsonUnmarshal :=
  ⟨rfl, by decide⟩

/-- C2 (amended): when `json.Unmarshal` accepts the body and `Sscanf("%f")` reads no
value from the change-percent text with its `%` suffix removed (as for a missing or
empty text and for `abc%`), `getStockData` succeeds and stores `0.00%`. -/
theorem getStockData_unscannable_percent (get : Str → HttpResult) (symbol apiKey : Str)
    (status : Nat) (body : Str) (response : AlphaVantageResponse)
    (hget : get (quoteURL symbol apiKey) = .response status (.ok body))
    (hdec : jsonUnmarshal body = .ok response)
    (hbad : sscanFloat (trimSuffix response.GlobalQuote.ChangePercent ['%']) = none) :
    getStockData get symbol apiKey =
      .ok { response.GlobalQuote with ChangePercent := "0.00%".toList } ∧
    sscanFloat (trimSuffix [] ['%']) = none ∧
    sscanFloat (trimSuffix "abc%".toList ['%']) = none := by
  have hzero : formatFixed2 F64.zero ++ ['%'] = "0.00%".toList := by decide
  refine ⟨?_, by decide, by decide⟩
  simp only [getStockData, hget, hdec, normalizePercent, hbad, Option.getD_none, hzero]

theorem getStockData_unscannable_percent_witness :
    getStockData (fun _ => .response 200 (.ok (percentBody "abc%".toList))) "MSFT".toList
      "demo".toList = .ok ⟨[], F64.zero, F64.zero, "0.00%".toList⟩ :=
  (getStockData_unscannable_percent (fun _ => .response 200 (.ok (percentBody "abc%".toList)))
    "MSFT".toList "demo".toList 200 (percentBody "abc%".toList)
    ⟨⟨[], F64.zero, F64.zero, "abc%".toList⟩⟩ rfl (by decide) (by decide)).1

/-- C3 (as stated, refuted): a response with status 500, which is not a 2xx status,
and a well-formed quote body yields a record and no error. -/
theorem getStockData_status_500_succeeds :
    ¬ (200 ≤ 500 ∧ 500 < 300) ∧
    getStockData (fun _ => .response 500 (.ok msftBody)) "MSFT".toList "demo".toList =
      .ok ⟨"MSFT".toList, roundToF64 false 300 1, roundToF64 false 2 1, "0.67%".toList⟩ := by
  decide

/-- C3 (amended): `getStockData` returns an error and no record when `http.Get` fails or
the body cannot be read; the status code of a response has no influence: the body
is decoded the same way whatever the status. -/
theorem getStockData_network (get : Str → HttpResult) (symbol apiKey : Str) :
    (∀ msg, get (quoteURL symbol apiKey) = .failed msg →
      getStockData get symbol apiKey = .error (.io msg)) ∧
    (∀ status msg, get (quoteURL symbol apiKey) = .response status (.error msg) →
      getStockData get symbol apiKey = .error (.io msg)) ∧
    (∀ status status₁ body, get (quoteURL symbol apiKey) = .response status (.ok body) →
      getStockData get symbol apiKey =
        getStockData (fun _ => .response status₁ (.ok body)) symbol apiKey) := by
  refine ⟨?_, ?_, ?_⟩
  · intro msg h
    simp [getStockData, h]
  · intro status msg h
    simp [getStockData, h]
  · intro status status₁ body h
    simp [getStockData, h]

theorem getStockData_network_witness :
    getStockData (fun _ => .failed "dial tcp: timeout".toList) "MSFT".toList "demo".toList =
      .error (.io "dial tcp: timeout".toList) :=
  (getStockData_network (fun _ => .failed "dial tcp: timeout".toList) "MSFT".toList
    "demo".toList).1 _ rfl

/-- C4 (as stated, refuted): asked for AAPL and answered with a quote whose symbol text
is MSFT, `getStockData` succeeds and the record says MSFT. -/
theorem getStockData_symbol_from_response :
    getStockData (fun _ => .response 200 (.ok msftBody)) "AAPL".toList "demo".toList =
      .ok ⟨"MSFT".toList, roundToF64 false 300 1, roundToF64 false 2 1, "0.67%".toList⟩ ∧
    "MSFT".toList ≠ "AAPL".toList := by
  decide

/-- C4 (amended): when `getStockData` succeeds, the symbol of the record is the symbol
text decoded from the response body (empty when the body carries none), and the
record does not depend on the symbol or key supplied by the caller beyond the
answer they obtain. -/
theorem getStockData_symbol (get : Str → HttpResult) (symbol apiKey : Str) (data : StockData)
    (h : getStockData get symbol apiKey = .ok data) :
    (∃ status body response, get (quoteURL symbol apiKey) = .response status (.ok body) ∧
      jsonUnmarshal body = .ok response ∧ data.Symbol = response.GlobalQuote.Symbol) ∧
    ∀ symbol₁ apiKey₁,
      getStockData (fun _ => get (quoteURL symbol apiKey)) symbol₁ apiKey₁ = .ok data := by
  unfold getStockData at h
  constructor
  · cases hg : get (quoteURL symbol apiKey) with
    | failed msg => simp [hg] at h
    | response status body =>
      cases body with
      | error msg => simp [hg] at h
      | ok body =>
        cases hu : jsonUnmarshal body with
        | error err => simp [hg, hu] at h
        | ok response =>
          simp only [hg, hu, Except.ok.injEq] at h
          exact ⟨status, body, response, rfl, hu, by rw [← h]⟩
  · intro symbol₁ apiKey₁
    unfold getStockData
    exact h

theorem getStockData_symbol_witness :
    getStockData (fun _ => HttpResult.response 200 (.ok msftBody)) "TSLA".toList
      "other".toList =
      .ok ⟨"MSFT".toList, roundToF64 false 300 1, roundToF64 false 2 1, "0.67%".toList⟩ :=
  (getStockData_symbol (fun _ => .response 200 (.ok msftBody)) "AAPL".toList "demo".toList
    ⟨"MSFT".toList, roundToF64 false 300 1, roundToF64 false 2 1, "0.67%".toList⟩
    (by decide)).2 "TSLA".toList "other".toList

/-- C5: when the body of the response is not well-formed JSON, `getStockData` returns
the decoder's syntax error and no record. -/
theorem getStockData_malformed_body (get : Str → HttpResult) (symbol apiKey : Str)
    (status : Nat) (body : Str)
    (hget : get (quoteURL symbol apiKey) = .response status (.ok body))
    (hbad : parseJSON body = none) :
    getStockData get symbol apiKey = .error .jsonSyntax := by
  simp [getStockData, hget, jsonUnmarshal, hbad]

theorem getStockData_malformed_body_witness :
    getStockData (fun _ => .response 200 (.ok "<html>Bad Gateway</html>".toList))
      "MSFT".toList "demo".toList = .error .jsonSyntax :=
  getStockData_malformed_body _ _ _ 200 "<html>Bad Gateway</html>".toList rfl rfl

/-- C6: the line printed by `displayStockData` is the symbol in yellow, the price with
two decimals in plain text, and the change-percent text of the record in red when
`Change < 0` and in green otherwise, so that the coloured piece is the percent text and
the colour changes no text; the percent piece is red exactly when `Change < 0` and
green exactly when not (for a finite change: red exactly when it is negative and not
zero); a change of 0 is green, of -0.5 red, of 3.1 green. -/
theorem displayStockData_flag (data : StockData) :
    displayStockData data =
      [.text .yellow data.Symbol,
       .text .plain (": $".toList ++ formatFixed2 data.Price ++ " (".toList),
       .text (if F64.lt data.Change F64.zero = true then .red else .green) data.ChangePercent,
       .text .plain [')']] ∧
    ((displayStockData data).percentPiece = some (.text .red data.ChangePercent) ↔
      F64.lt data.Change F64.zero = true) ∧
    ((displayStockData data).percentPiece = some (.text .green data.ChangePercent) ↔
      F64.lt data.Change F64.zero = false) ∧
    (∀ neg m e, displayStockData { data with Change := .fin neg m e } =
      [.text .yellow data.Symbol,
       .text .plain (": $".toList ++ formatFixed2 data.Price ++ " (".toList),
       .text (if neg = true ∧ 0 < m then .red else .green) data.ChangePercent,
       .text .plain [')']]) ∧
    (displayStockData { data with Change := F64.zero }).percentPiece =
      some (.text .green data.ChangePercent) ∧
    (displayStockData { data with Change := roundToF64 true 1 2 }).percentPiece =
      some (.text .red data.ChangePercent) ∧
    (displayStockData { data with Change := roundToF64 false 31 10 }).percentPiece =
      some (.text .green data.ChangePercent) ∧
    ((displayStockData data).flag = some .red ↔ F64.lt data.Change F64.zero = true) ∧
    ((displayStockData data).flag = some .green ↔ F64.lt data.Change F64.zero = false) ∧
    (displayStockData data).printed =
      data.Symbol ++ ": $".toList ++ formatFixed2 data.Price ++ " (".toList ++
        data.ChangePercent ++ [')'] ∧
    (∀ neg m e, (displayStockData { data with Change := .fin neg m e }).flag =
      some (if neg = true ∧ 0 < m then .red else .green)) ∧
    (displayStockData { data with Change := F64.zero }).flag = some .green ∧
    (displayStockData { data with Change := roundToF64 true 1 2 }).flag = some .red ∧
    (displayStockData { data with Change := roundToF64 false 31 10 }).flag = some .green ∧
    parseFloat "-0.5".toList = some (roundToF64 true 1 2) ∧
    parseFloat "3.1".toList = some (roundToF64 false 31 10) ∧
    parseFloat "0".toList = some F64.zero := by
  have hz : F64.lt F64.zero F64.zero = false := by decide
  have hd : roundToF64 true 1 2 = .fin true 4503599627370496 (-53) := by decide
  have hu : roundToF64 false 31 10 = .fin false 6980579422424269 (-51) := by decide
  refine ⟨?_, ?_, ?_, ?_, ?_, ?_, ?_, ?_, ?_, ?_, ?_, ?_, ?_, ?_, by decide, by decide, by decide⟩
  · unfold displayStockData
    cases F64.lt data.Change F64.zero <;> simp
  · unfold displayStockData Line.percentPiece
    cases F64.lt data.Change F64.zero <;> simp
  · unfold displayStockData Line.percentPiece
    cases F64.lt data.Change F64.zero <;> simp
  · intro neg m e
    unfold displayStockData
    simp only [lt_zero_fin]
    cases neg <;> by_cases hm : 0 < m <;> simp [hm]
  · unfold displayStockData Line.percentPiece
    simp [hz]
  · unfold displayStockData Line.percentPiece
    simp [hd, lt_zero_fin]
  · unfold displayStockData Line.percentPiece
    simp [hu, lt_zero_fin]
  · unfold displayStockData Line.flag
    cases F64.lt data.Change F64.zero <;> simp
  · unfold displayStockData Line.flag
    cases F64.lt data.Change F64.zero <;> simp
  · unfold displayStockData Line.printed
    cases F64.lt data.Change F64.zero <;> simp [Seg.str]
  · intro neg m e
    unfold displayStockData Line.flag
    simp only [lt_zero_fin]
    cases neg <;> by_cases hm : 0 < m <;> simp [hm]
  · unfold displayStockData Line.flag
    simp [hz]
  · unfold displayStockData Line.flag
    simp [hd, lt_zero_fin]
  · unfold displayStockData Line.flag
    simp [hu, lt_zero_fin]

/-- C8 (code at the failing input): with the API key set and `STOCK_SYMBOLS` not set,
start-up enters the loop with the one-element list holding the empty symbol, not
with the three default tickers. -/
theorem startup_symbols_unset :
    startup none (envOf [("ALPHA_VANTAGE_API_KEY".toList, "demo".toList)]) =
      .polling (banner 60) "demo".toList [[]] 60 ∧
    ([[]] : List Str) ≠ ["AAPL".toList, "MSFT".toList, "GOOGL".toList] := by
  decide

/-- C9 (as stated, refuted): with `UPDATE_INTERVAL` set to `5abc`, to `0` or to `-5`,
start-up does not exit: it enters the loop with the interval 5, 0 and -5. -/
theorem startup_interval_accepted :
    startup none (envOf [("ALPHA_VANTAGE_API_KEY".toList, "demo".toList),
        ("UPDATE_INTERVAL".toList, "5abc".toList)]) =
      .polling (banner 5) "demo".toList [[]] 5 ∧
    startup none (envOf [("ALPHA_VANTAGE_API_KEY".toList, "demo".toList),
        ("UPDATE_INTERVAL".toList, "0".toList)]) =
      .polling (banner 0) "demo".toList [[]] 0 ∧
    startup none (envOf [("ALPHA_VANTAGE_API_KEY".toList, "demo".toList),
        ("UPDATE_INTERVAL".toList, "-5".toList)]) =
      .polling (banner (-5)) "demo".toList [[]] (-5) := by
  decide

/-- C9 (amended): with the environment file loaded and the API key set, start-up
enters the loop with the interval 60 when `UPDATE_INTERVAL` is not set; when it is
set and `Sscanf("%d")` reads no integer from it (as for `abc`, and for
`9223372036854775808`, which is outside `int64`), start-up prints a diagnostic and
exits with code 1 without entering the loop; when `Sscanf("%d")` reads an integer from
it, start-up enters the loop with that integer.  For a text of at most `hugeWid`
characters made of an optional sign, one digit or more, and then nothing or a rest
that begins with a character other than a digit: start-up enters the loop with the
signed number when it lies in the `int64` range, and exits with code 1 when not. -/
theorem startup_update_interval (getenv : Str → Str)
    (hkey : getenv "ALPHA_VANTAGE_API_KEY".toList ≠ []) :
    (getenv "UPDATE_INTERVAL".toList = [] →
      startup none getenv = .polling (banner 60) (getenv "ALPHA_VANTAGE_API_KEY".toList)
        (split ',' (getenv "STOCK_SYMBOLS".toList)) 60) ∧
    (getenv "UPDATE_INTERVAL".toList ≠ [] → sscanInt (getenv "UPDATE_INTERVAL".toList) = none →
      startup none getenv =
        .exit [[.text .plain "Error parsing UPDATE_INTERVAL: ".toList, .error .scan]] 1) ∧
    (∀ n, getenv "UPDATE_INTERVAL".toList ≠ [] →
      sscanInt (getenv "UPDATE_INTERVAL".toList) = some n →
      startup none getenv = .polling (banner n) (getenv "ALPHA_VANTAGE_API_KEY".toList)
        (split ',' (getenv "STOCK_SYMBOLS".toList)) n) ∧
    (∀ sign ds tail : Str, (sign = [] ∨ sign = ['+'] ∨ sign = ['-']) → ds ≠ [] →
      (∀ c ∈ ds, c.isDigit = true) → (∀ c r, tail = c :: r → c.isDigit = false) →
      (sign ++ ds ++ tail).length ≤ hugeWid →
      getenv "UPDATE_INTERVAL".toList = sign ++ ds ++ tail →
      (-(2 ^ 63) ≤ numeralValue sign ds ∧ numeralValue sign ds < 2 ^ 63 →
        startup none getenv =
          .polling (banner (numeralValue sign ds)) (getenv "ALPHA_VANTAGE_API_KEY".toList)
            (split ',' (getenv "STOCK_SYMBOLS".toList)) (numeralValue sign ds)) ∧
      (¬ (-(2 ^ 63) ≤ numeralValue sign ds ∧ numeralValue sign ds < 2 ^ 63) →
        startup none getenv =
          .exit [[.text .plain "Error parsing UPDATE_INTERVAL: ".toList, .error .scan]] 1)) ∧
    sscanInt "abc".toList = none ∧
    sscanInt "9223372036854775808".toList = none := by
  have hlen := split_length_ne_zero ',' (getenv "STOCK_SYMBOLS".toList)
  have hnone : getenv "UPDATE_INTERVAL".toList ≠ [] →
      sscanInt (getenv "UPDATE_INTERVAL".toList) = none →
      startup none getenv =
        .exit [[.text .plain "Error parsing UPDATE_INTERVAL: ".toList, .error .scan]] 1 := by
    intro h hs
    unfold startup
    simp only [if_neg hkey, hs, ne_eq, h, not_false_eq_true, if_true]
  have hsome : ∀ n, getenv "UPDATE_INTERVAL".toList ≠ [] →
      sscanInt (getenv "UPDATE_INTERVAL".toList) = some n →
      startup none getenv = .polling (banner n) (getenv "ALPHA_VANTAGE_API_KEY".toList)
        (split ',' (getenv "STOCK_SYMBOLS".toList)) n := by
    intro n h hs
    unfold startup
    simp only [if_neg hkey, if_neg hlen, hs, ne_eq, h, not_false_eq_true, if_true]
  refine ⟨?_, hnone, hsome, ?_, by decide, by decide⟩
  · intro h
    unfold startup
    simp only [if_neg hkey, if_neg hlen, h, ne_eq, not_true_eq_false, if_false]
  · intro sign ds tail hsign hne hds htail hl htext
    have hpres : getenv "UPDATE_INTERVAL".toList ≠ [] := by
      rw [htext]
      obtain ⟨c, r, rfl⟩ := List.exists_cons_of_ne_nil hne
      simp
    have hscan := sscanInt_numeral_value sign ds tail hsign hne hds htail hl
    rw [← htext] at hscan
    constructor
    · intro hr
      rw [if_pos hr] at hscan
      exact hsome _ hpres hscan
    · intro hr
      rw [if_neg hr] at hscan
      exact hnone hpres hscan

theorem startup_update_interval_witness :
    startup none (envOf [("ALPHA_VANTAGE_API_KEY".toList, "demo".toList),
        ("UPDATE_INTERVAL".toList, "abc".toList)]) =
      .exit [[.text .plain "Error parsing UPDATE_INTERVAL: ".toList, .error .scan]] 1 ∧
    startup none (envOf [("ALPHA_VANTAGE_API_KEY".toList, "demo".toList),
        ("UPDATE_INTERVAL".toList, "9223372036854775808".toList)]) =
      .exit [[.text .plain "Error parsing UPDATE_INTERVAL: ".toList, .error .scan]] 1 ∧
    startup none (envOf [("ALPHA_VANTAGE_API_KEY".toList, "demo".toList),
        ("UPDATE_INTERVAL".toList, "-5 seconds".toList)]) =
      .polling (banner (-5)) "demo".toList [[]] (-5) ∧
    startup none (envOf [("ALPHA_VANTAGE_API_KEY".toList, "demo".toList)]) =
      .polling (banner 60) "demo".toList [[]] 60 :=
  ⟨(startup_update_interval (envOf [("ALPHA_VANTAGE_API_KEY".toList, "demo".toList),
      ("UPDATE_INTERVAL".toList, "abc".toList)]) (by decide)).2.1 (by decide) (by decide),
   ((startup_update_interval (envOf [("ALPHA_VANTAGE_API_KEY".toList, "demo".toList),
      ("UPDATE_INTERVAL".toList, "9223372036854775808".toList)]) (by decide)).2.2.2.1
      [] "9223372036854775808".toList [] (Or.inl rfl) (by decide) (by decide)
      (fun _ _ h => List.noConfusion h) (by decide) rfl).2 (by decide),
   ((startup_update_interval (envOf [("ALPHA_VANTAGE_API_KEY".toList, "demo".toList),
      ("UPDATE_INTERVAL".toList, "-5 seconds".toList)]) (by decide)).2.2.2.1
      ['-'] ['5'] " seconds".toList (Or.inr (Or.inr rfl)) (by decide) (by decide)
      (fun _ _ h => by cases h; decide) (by decide) rfl).1 (by decide),
   (startup_update_interval (envOf [("ALPHA_VANTAGE_API_KEY".toList, "demo".toList)])
      (by decide)).1 (by decide)⟩

/-- C10 (as stated, refuted): a well-formed JSON object whose only key is
`global quote`, which is not the key `Global Quote`, is decoded into the record: the
symbol is `X` and the price 1, not the all-default record. -/
theorem getStockData_lower_case_key :
    parseJSON lowerKeyBody = some (.object [("global quote".toList,
      .object [("01. symbol".toList, .string ['X']), ("05. price".toList, .string ['1'])])]) ∧
    "global quote".toList ≠ globalQuoteName ∧
    getStockData (fun _ => .response 200 (.ok lowerKeyBody)) "MSFT".toList "demo".toList =
      .ok ⟨['X'], roundToF64 false 1 1, F64.zero, "0.00%".toList⟩ ∧
    (⟨['X'], roundToF64 false 1 1, F64.zero, "0.00%".toList⟩ : StockData) ≠
      ⟨[], F64.zero, F64.zero, "0.00%".toList⟩ :=
  ⟨rfl, by decide, by decide, by decide⟩

/-- C10 (amended): when the body is a well-formed JSON object none of whose keys equals
`Global Quote` up to letter case, `getStockData` succeeds with the record of symbol
`""`, price 0, change 0 and change-percent `0.00%`, whatever symbol was asked for,
and the loop prints it as a quote line flagged green, not as a diagnostic. -/
theorem getStockData_no_global_quote (get : Str → HttpResult) (symbol apiKey : Str)
    (status : Nat) (body : Str) (members : List (Str × JSON))
    (hget : get (quoteURL symbol apiKey) = .response status (.ok body))
    (hobj : parseJSON body = some (.object members))
    (hkey : ∀ kv ∈ members, foldName kv.1 ≠ foldName globalQuoteName) :
    getStockData get symbol apiKey = .ok ⟨[], F64.zero, F64.zero, "0.00%".toList⟩ ∧
    (∀ k, pollSymbols (fun _ => get) apiKey k [symbol] =
      [displayStockData ⟨[], F64.zero, F64.zero, "0.00%".toList⟩]) ∧
    (displayStockData ⟨[], F64.zero, F64.zero, "0.00%".toList⟩).flag = some .green := by
  have hdec : jsonUnmarshal body = .ok AlphaVantageResponse.zero := by
    simp only [jsonUnmarshal, hobj, decodeResponse,
      decodeResponseMembers_unmatched AlphaVantageResponse.zero members hkey]
  have hnorm : normalizePercent [] = "0.00%".toList := by decide
  have hres : getStockData get symbol apiKey =
      .ok ⟨[], F64.zero, F64.zero, "0.00%".toList⟩ := by
    simp only [getStockData, hget, hdec, AlphaVantageResponse.zero, StockData.zero, hnorm]
  refine ⟨hres, ?_, by decide⟩
  intro k
  simp only [pollSymbols, hres]

theorem getStockData_no_global_quote_witness :
    getStockData (fun _ => .response 200 (.ok noteBody)) "MSFT".toList "demo".toList =
      .ok ⟨[], F64.zero, F64.zero, "0.00%".toList⟩ :=
  (getStockData_no_global_quote (fun _ => .response 200 (.ok noteBody)) "MSFT".toList
    "demo".toList 200 noteBody
    [("Note".toList, .string "Thank you for using Alpha Vantage!".toList)]
    rfl rfl (by decide)).1

end MarketRadar
